import Mathlib

/-!
Verification of the markdown rendering and interpolation pipeline of the
Astrodon static-site builder.  All definitions are shallow embeddings,
translated pass by pass from the TypeScript source (`parseMarkdown`,
`extractMetadata`, `executeLuaScript`, `processLuaInterpolations`,
`processTOCMarker`).  Strings are modelled as `List Char`; each JavaScript
regex is translated into an explicit deterministic scanner realising the
regex engine's leftmost-match / greedy / lazy behaviour on that concrete
pattern.  Scanners are written with an explicit fuel argument (always
instantiated with more fuel than the input length) so that every
definition reduces in the kernel.
-/

set_option maxRecDepth 100000

namespace Astrodon

/-- The character list of a string literal. -/
def chars (s : String) : List Char := s.data

/-- Rebuild a string from a character list. -/
def str (l : List Char) : String := ⟨l⟩

/-- JavaScript's `\s` character class, restricted to the ASCII whitespace
characters (the source only ever feeds it ASCII text; the Unicode space
characters of the full class never occur). -/
def jsWs (c : Char) : Bool :=
  c = ' ' || c = '\t' || c = '\n' || c = '\r' || c = '\x0b' || c = '\x0c'

/-- JavaScript's `\w` character class `[A-Za-z0-9_]`. -/
def jsWord (c : Char) : Bool :=
  (('a' ≤ c && c ≤ 'z') || ('A' ≤ c && c ≤ 'Z') || ('0' ≤ c && c ≤ '9') || c = '_')

/-- ASCII decimal digit. -/
def jsDigit (c : Char) : Bool := '0' ≤ c && c ≤ '9'

/-- `String.prototype.trim()` on a character list. -/
def trimL (l : List Char) : List Char :=
  ((l.dropWhile jsWs).reverse.dropWhile jsWs).reverse

/-- Does `p` occur as a prefix of `l`? -/
def startsL : List Char → List Char → Bool
  | [], _ => true
  | _ :: _, [] => false
  | p :: ps, c :: cs => p = c && startsL ps cs

/-- Index of the first occurrence of pattern `p` in `l` (`String.indexOf`). -/
def findSub (p : List Char) : List Char → Option Nat
  | [] => if startsL p [] then some 0 else none
  | c :: cs => if startsL p (c :: cs) then some 0 else (findSub p cs).map (· + 1)

/-- Does `p` occur anywhere in `l` as a contiguous substring? -/
def containsSub (l p : List Char) : Bool := (findSub p l).isSome

/-- Substring occurrence as a direct boolean scan (logically the same
check as `containsSub`, phrased to reduce cheaply on long inputs). -/
def containsSubB (pat : List Char) : List Char → Bool
  | [] => startsL pat []
  | c :: cs => startsL pat (c :: cs) || containsSubB pat cs

/-- Substring containment at the `String` level. -/
def strContainsSub (s pat : String) : Bool := containsSubB pat.data s.data

/-- `split` on a single separator character (JavaScript `String.split(c)`). -/
def splitOnCharL (sep : Char) : List Char → List (List Char)
  | [] => [[]]
  | c :: cs =>
    if c = sep then [] :: splitOnCharL sep cs
    else
      match splitOnCharL sep cs with
      | [] => [[c]]
      | h :: t => (c :: h) :: t

/-- `split(/\r?\n/)`: a line break is `\r\n` or a bare `\n`; a lone `\r`
stays inside the line. -/
def splitLinesRN : List Char → List (List Char)
  | [] => [[]]
  | '\r' :: '\n' :: cs => [] :: splitLinesRN cs
  | '\n' :: cs => [] :: splitLinesRN cs
  | c :: cs =>
    match splitLinesRN cs with
    | [] => [[c]]
    | h :: t => (c :: h) :: t

/-- `Array.prototype.join(sep)`. -/
def joinWith (sep : List Char) : List (List Char) → List Char
  | [] => []
  | [l] => l
  | l :: ls => l ++ sep ++ joinWith sep ls

/-- Decimal digit list of a natural number (used for placeholder indices). -/
def natChars (n : Nat) : List Char := (Nat.repr n).data

/-- `parseInt` on a nonempty list of decimal digits. -/
def digitsToNat (l : List Char) : Nat :=
  l.foldl (fun a c => a * 10 + (c.toNat - 48)) 0

/-! ### A generic model of `String.prototype.replace(regex, f)` with the
`g` flag.

A pass is given by a *step* function which attempts a match anchored at
the current position; it receives the previous character of the original
string (`none` at the very start, used for `^`-anchoring and lookbehind)
and the remaining input, and returns the matched length together with the
replacement text.  On a match of length `k ≥ 1` the scan resumes after the
match; on an empty match the engine emits the replacement and advances by
one character, copying it — exactly the JavaScript semantics. -/

/-- Stateful global replace.  `fuel` strictly exceeds the input length in
every use, so the `0` case is never reached. -/
def gRepl (σ : Type) (step : σ → Option Char → List Char → Option (Nat × List Char × σ)) :
    Nat → σ → Option Char → List Char → List Char × σ
  | 0, s, _, l => (l, s)
  | _ + 1, s, _, [] => ([], s)
  | fuel + 1, s, prev, c :: cs =>
    match step s prev (c :: cs) with
    | some (0, rep, s') =>
      let r := gRepl σ step fuel s' (some c) cs
      (rep ++ c :: r.1, r.2)
    | some (k + 1, rep, s') =>
      let r := gRepl σ step fuel s' (some ((c :: cs).getD k c)) (cs.drop k)
      (rep ++ r.1, r.2)
    | none =>
      let r := gRepl σ step fuel s (some c) cs
      (c :: r.1, r.2)

/-- Stateless global replace. -/
def gRepl0 (step : Option Char → List Char → Option (Nat × List Char)) :
    Nat → Option Char → List Char → List Char :=
  fun fuel prev l =>
    (gRepl Unit (fun _ p r => (step p r).map fun kr => (kr.1, kr.2, ())) fuel () prev l).1

/-- If the step function fires nowhere in the input, a global replace is
the identity and leaves the state unchanged. -/
theorem gRepl_no_match (σ : Type) (step : σ → Option Char → List Char → Option (Nat × List Char × σ)) :
    ∀ fuel (st : σ) prev l, l.length < fuel →
      (∀ p t, t <:+ l → step st p t = none) →
      gRepl σ step fuel st prev l = (l, st) := by
  intro fuel
  induction fuel with
  | zero => intro st prev l h; omega
  | succ fuel ih =>
    intro st prev l h hno
    match l with
    | [] => rfl
    | c :: cs =>
      have hstep : step st prev (c :: cs) = none := hno prev (c :: cs) (List.suffix_refl _)
      simp only [gRepl, hstep]
      rw [ih st (some c) cs (by simp at h ⊢; omega)
        (fun p t ht => hno p t (ht.trans (List.suffix_cons c cs)))]

/-- Decidable "the core matcher fires at no suffix of `l`". -/
def noMatchB {α : Type} (f : List Char → Option α) : List Char → Bool
  | [] => (f []).isNone
  | c :: cs => (f (c :: cs)).isNone && noMatchB f cs

theorem noMatchB_suffix {α : Type} (f : List Char → Option α) :
    ∀ l, noMatchB f l = true → ∀ t, t <:+ l → f t = none := by
  intro l
  induction l with
  | nil =>
    intro h t ht
    rw [List.suffix_nil.mp ht]
    simpa [noMatchB, Option.isNone_iff_eq_none] using h
  | cons c cs ih =>
    intro h t ht
    simp only [noMatchB, Bool.and_eq_true, Option.isNone_iff_eq_none] at h
    rcases List.suffix_cons_iff.mp ht with h1 | h1
    · rw [h1]; exact h.1
    · exact ih h.2 t h1

/-! ### Script-block vault (build.ts lines 40-43 and 300-302)

`markdown.replace(/<script>([\s\S]*?)<\/script>/g, ...)` pushes the whole
match and leaves `\n\n__SCRIPT_BLOCK_<i>__\n\n` in its place; the restore
pass `markdown.replace(/__SCRIPT_BLOCK_(\d+)__/g, ...)` substitutes
`scriptBlocks[i] || match`. -/

def scriptOpenT : List Char := chars "<script>"
def scriptCloseT : List Char := chars "</script>"

/-- Lazy match of `<script>([\s\S]*?)<\/script>` anchored at the head of the
list: the span runs to the *first* subsequent `</script>`.  Returns the
length of the whole match. -/
def scriptSpanAt (l : List Char) : Option Nat :=
  if startsL scriptOpenT l then
    match findSub scriptCloseT (l.drop 8) with
    | some j => some (8 + j + 9)
    | none => none
  else none

/-- Step function of the protection pass; the state is the pair
(next index, collected spans). -/
def protectScriptsStep (s : Nat × List (List Char)) (_ : Option Char) (l : List Char) :
    Option (Nat × List Char × (Nat × List (List Char))) :=
  match scriptSpanAt l with
  | some len =>
    some (len, chars "\n\n__SCRIPT_BLOCK_" ++ natChars s.1 ++ chars "__\n\n",
          (s.1 + 1, s.2 ++ [l.take len]))
  | none => none

/-- The script protection pass: global scan replacing each span by a
newline-padded placeholder token, collecting the spans in order. -/
def protectScriptsL (l : List Char) : List Char × List (List Char) :=
  let r := gRepl _ protectScriptsStep (l.length + 1) (0, []) none l
  (r.1, r.2.2)

def scriptTokT : List Char := chars "__SCRIPT_BLOCK_"

/-- Match of `__SCRIPT_BLOCK_(\d+)__` anchored at the head: returns the
length of the whole match and the parsed index. -/
def scriptTokenAt (l : List Char) : Option (Nat × Nat) :=
  if startsL scriptTokT l then
    let rest := l.drop 15
    let ds := rest.takeWhile jsDigit
    if ds.length = 0 then none
    else if startsL (chars "__") (rest.drop ds.length) then
      some (15 + ds.length + 2, digitsToNat ds)
    else none
  else none

/-- Step function of the restore pass: `scriptBlocks[parseInt(index)] ||
match` — a missing index (and the impossible empty block) keeps the token
text. -/
def restoreScriptsStep (bs : List (List Char)) (_ : Option Char) (l : List Char) :
    Option (Nat × List Char) :=
  match scriptTokenAt l with
  | some (len, n) =>
    some (len,
      match bs.getD n [] with
      | [] => l.take len
      | b => b)
  | none => none

/-- The script restore pass. -/
def restoreScriptsL (bs : List (List Char)) (l : List Char) : List Char :=
  gRepl0 (restoreScriptsStep bs) (l.length + 1) none l

/-- `String`-level wrapper for the script protection pass. -/
def protectScriptBlocks (s : String) : String × List String :=
  let r := protectScriptsL s.data
  (str r.1, r.2.map str)

/-- `String`-level wrapper for the script restore pass. -/
def restoreScriptBlocks (s : String) (bs : List String) : String :=
  str (restoreScriptsL (bs.map String.data) s.data)

/-! ### Code-block vault (build.ts lines 144-150)

````markdown.replace(/```(\w+)?\n([\s\S]*?)```/g, ...)```` stores
`{lang: language || 'plaintext', code}` and leaves `@@CODEBLOCK<i>@@`
— with no padding — in place of the fence. -/

structure RawCodeBlock where
  lang : List Char
  code : List Char
deriving DecidableEq, Repr

def fenceT : List Char := chars "```"

/-- Match of ```` ```(\w+)?\n([\s\S]*?)``` ```` anchored at the head:
returns (whole-match length, language word, lazy code span). -/
def codeFenceAt (l : List Char) : Option (Nat × List Char × List Char) :=
  if startsL fenceT l then
    let rest := l.drop 3
    let lang := rest.takeWhile jsWord
    match rest.drop lang.length with
    | '\n' :: rest3 =>
      match findSub fenceT rest3 with
      | some j => some (3 + lang.length + 1 + j + 3, lang, rest3.take j)
      | none => none
    | _ => none
  else none

/-- Step function of the code-fence protection pass. -/
def protectCodeStep (s : Nat × List RawCodeBlock) (_ : Option Char) (l : List Char) :
    Option (Nat × List Char × (Nat × List RawCodeBlock)) :=
  match codeFenceAt l with
  | some (len, lang, code) =>
    some (len, chars "@@CODEBLOCK" ++ natChars s.1 ++ chars "@@",
          (s.1 + 1, s.2 ++ [⟨if lang.length = 0 then chars "plaintext" else lang, code⟩]))
  | none => none

/-- The code-fence protection pass. -/
def protectCodeL (l : List Char) : List Char × List RawCodeBlock :=
  let r := gRepl _ protectCodeStep (l.length + 1) (0, []) none l
  (r.1, r.2.2)

def codeTokT : List Char := chars "@@CODEBLOCK"

/-- Match of `@@CODEBLOCK(\d+)@@` anchored at the head. -/
def codeTokenAt (l : List Char) : Option (Nat × Nat) :=
  if startsL codeTokT l then
    let rest := l.drop 11
    let ds := rest.takeWhile jsDigit
    if ds.length = 0 then none
    else if startsL (chars "@@") (rest.drop ds.length) then
      some (11 + ds.length + 2, digitsToNat ds)
    else none
  else none

/-- Verbatim token-back-substitution for the code vault, as described by the
spec's vault contract: each `@@CODEBLOCK<i>@@` token is replaced by the span
rebuilt from the stored `(lang, code)` pair.  (The source itself only
restores code blocks as escaped display HTML; this definition exists to
state the round-trip property the spec claims for the vault.) -/
def codeVaultSubstituteBackL (bs : List RawCodeBlock) (l : List Char) : List Char :=
  gRepl0
    (fun _ l' =>
      match codeTokenAt l' with
      | some (len, n) =>
        some (len,
          match bs[n]? with
          | some b => fenceT ++ b.lang ++ ['\n'] ++ b.code ++ fenceT
          | none => l'.take len)
      | none => none)
    (l.length + 1) none l

def protectCodeBlocks (s : String) : String × List RawCodeBlock :=
  let r := protectCodeL s.data
  (str r.1, r.2)

def codeVaultSubstituteBack (s : String) (bs : List RawCodeBlock) : String :=
  str (codeVaultSubstituteBackL bs s.data)

/-! ### Vault lemmas -/

/-- With no placeholder token anywhere in the input the restore pass is the
identity, for any block table. -/
theorem restoreScriptsL_no_token (bs : List (List Char)) (l : List Char)
    (h : noMatchB scriptTokenAt l = true) :
    restoreScriptsL bs l = l := by
  have := gRepl_no_match Unit
    (fun _ p r => (restoreScriptsStep bs p r).map fun kr => (kr.1, kr.2, ()))
    (l.length + 1) () none l (Nat.lt_succ_self _)
    (by
      intro p t ht
      have := noMatchB_suffix scriptTokenAt l h t ht
      simp [restoreScriptsStep, this])
  simp only [restoreScriptsL, gRepl0, this]

/-- With no script span anywhere in the input the protection pass copies
the input and collects nothing. -/
theorem protectScriptsL_no_span (l : List Char)
    (h : noMatchB scriptSpanAt l = true) :
    protectScriptsL l = (l, []) := by
  have := gRepl_no_match _ protectScriptsStep (l.length + 1) (0, []) none l
    (Nat.lt_succ_self _)
    (by
      intro p t ht
      have := noMatchB_suffix scriptSpanAt l h t ht
      simp [protectScriptsStep, this])
  simp [protectScriptsL, this]

/-! ## Claim C2: the placeholder-vault round trip -/

/-- **C2 counterexample.**  The claim says `restore(protect(x)) == x` with
no extra characters such as inserted blank lines; but the script-vault
protection replaces the span by `\n\n__SCRIPT_BLOCK_0__\n\n`, and restoring
only substitutes the token, leaving the inserted blank lines behind. -/
theorem c2_roundtrip_counterexample :
    restoreScriptBlocks (protectScriptBlocks "a<script>s</script>b").1
        (protectScriptBlocks "a<script>s</script>b").2
      = "a\n\n<script>s</script>\n\nb" ∧
    restoreScriptBlocks (protectScriptBlocks "a<script>s</script>b").1
        (protectScriptBlocks "a<script>s</script>b").2
      ≠ "a<script>s</script>b" := by
  constructor
  · decide
  · decide

/-- **C2 (amended).**  Restore is a no-op whenever no placeholder token
occurs in the text, and the round trip is the identity on inputs with no
protected span; but the script-vault protection surrounds every token with
a blank-line pair, so on an input containing a script span the round trip
yields `x` with `\n\n` inserted on each side of the span rather than
exactly `x`.  For the code vault the token replaces the span with no
padding, and substituting each token back with the span rebuilt from its
stored (language, code) pair restores `x` when the fence declares a
language. -/
theorem c2_vault_amended :
    (∀ (bs : List String) (x : String), noMatchB scriptTokenAt x.data = true →
        restoreScriptBlocks x bs = x) ∧
    (∀ x : String, noMatchB scriptSpanAt x.data = true →
        (protectScriptBlocks x).1 = x ∧ (protectScriptBlocks x).2 = [] ∧
        (noMatchB scriptTokenAt x.data = true →
          restoreScriptBlocks (protectScriptBlocks x).1 (protectScriptBlocks x).2 = x)) ∧
    (restoreScriptBlocks (protectScriptBlocks "a<script>s</script>b").1
        (protectScriptBlocks "a<script>s</script>b").2
      = "a\n\n<script>s</script>\n\nb") ∧
    (codeVaultSubstituteBack (protectCodeBlocks "p\n```js\nlet x = 1;\n```\nq").1
        (protectCodeBlocks "p\n```js\nlet x = 1;\n```\nq").2
      = "p\n```js\nlet x = 1;\n```\nq") := by
  refine ⟨?_, ?_, by decide, by decide⟩
  · intro bs x h
    show str (restoreScriptsL (bs.map String.data) x.data) = x
    rw [restoreScriptsL_no_token _ _ h]
    rfl
  · intro x h
    have hp : protectScriptsL x.data = (x.data, []) := protectScriptsL_no_span _ h
    refine ⟨?_, ?_, ?_⟩
    · show str (protectScriptsL x.data).1 = x
      rw [hp]; rfl
    · show ((protectScriptsL x.data).2.map str) = []
      rw [hp]; rfl
    · intro htok
      show restoreScriptBlocks (str (protectScriptsL x.data).1)
          ((protectScriptsL x.data).2.map str) = x
      rw [hp]
      show str (restoreScriptsL ([].map String.data) (str x.data).data) = x
      rw [show (str x.data).data = x.data from rfl]
      rw [restoreScriptsL_no_token _ _ htok]
      rfl

/-- Witness for `c2_vault_amended`: the hypotheses are discharged at
concrete inputs. -/
theorem c2_vault_amended_witness :
    restoreScriptBlocks "plain text, no tokens" ["b"] = "plain text, no tokens" ∧
    (protectScriptBlocks "no spans here").1 = "no spans here" := by
  exact ⟨c2_vault_amended.1 ["b"] "plain text, no tokens" (by decide),
         (c2_vault_amended.2.1 "no spans here" (by decide)).1⟩

/-! ### Nested-lists pass (build.ts lines 93-137)

A line-by-line scan with a stack of open list frames.  The output is
modelled as a token list (`LOut`) whose rendering is exactly the
`htmlLines` array built by the source; the tokens distinguish the
`<ul>/<ol>` tags *emitted by the pass* from pass-through lines. -/

inductive LKind where
  | ul
  | ol
deriving DecidableEq, Repr

/-- A stack entry `{type, indent}`. -/
structure LFrame where
  kind : LKind
  indent : Nat
deriving DecidableEq, Repr

inductive LOut where
  | openT (k : LKind)
  | closeT (k : LKind)
  | item (content : List Char)
  | raw (line : List Char)
deriving DecidableEq, Repr

/-- Match of `^([ ]{0,6})([-*]|\d+\.)[ ]+(.*)$` (no flags) against one
line: at most six leading spaces may be captured, so a line with seven or
more leading spaces before the marker never matches.  Returns (number of
captured spaces, list type, content).  `$` without the `m` flag only
matches the end of the string and `.` matches neither `\n` nor `\r`, so a
line whose content contains either terminator cannot match (the lines come
from `split(/\r?\n/)`, so a lone `\r` can survive inside a line). -/
def parseListLine (l : List Char) : Option (Nat × LKind × List Char) :=
  let sp := l.takeWhile (fun c => c = ' ')
  if sp.length ≤ 6 then
    let afterMarker := fun (k : LKind) (rest : List Char) =>
      let w := rest.takeWhile (fun c => c = ' ')
      if 1 ≤ w.length then
        let content := rest.drop w.length
        if content.contains '\n' || content.contains '\r' then none
        else some (sp.length, k, content)
      else none
    match l.drop sp.length with
    | '-' :: rest => afterMarker LKind.ul rest
    | '*' :: rest => afterMarker LKind.ul rest
    | rest =>
      let ds := rest.takeWhile jsDigit
      if 1 ≤ ds.length then
        match rest.drop ds.length with
        | '.' :: rest2 => afterMarker LKind.ol rest2
        | _ => none
      else none
  else none

/-- `while (listStack.length > 0 && indent < top.indent) close` — the
dedent unwind. -/
def closeWhile (st : List LFrame) (indent : Nat) : List LOut × List LFrame :=
  match st with
  | [] => ([], [])
  | f :: rest =>
    if indent < f.indent then
      let r := closeWhile rest indent
      (LOut.closeT f.kind :: r.1, r.2)
    else ([], f :: rest)

/-- `for (j = start; j <= indent && j < 3; j++) { open; push {type, j} }` —
the indent open loop, clamped at depth 3.  The fuel `3` bounds the at most
three iterations. -/
def openFrames (k : LKind) (indent : Nat) : Nat → Nat → List LFrame → List LOut × List LFrame
  | 0, _, st => ([], st)
  | fuel + 1, j, st =>
    if j ≤ indent ∧ j < 3 then
      let r := openFrames k indent fuel (j + 1) (⟨k, j⟩ :: st)
      (LOut.openT k :: r.1, r.2)
    else ([], st)

/-- `if (stack empty || indent > top.indent) { open loop }` — the indent
open stage. -/
def openStage (k : LKind) (indent : Nat) (st : List LFrame) : List LOut × List LFrame :=
  match st with
  | [] => openFrames k indent 3 0 []
  | f :: fs =>
    if f.indent < indent then openFrames k indent 3 (f.indent + 1) (f :: fs)
    else ([], f :: fs)

/-- `if (top.type !== type && indent === top.indent) { close; open }` —
the type-switch stage at equal indent. -/
def switchStage (k : LKind) (indent : Nat) (st : List LFrame) : List LOut × List LFrame :=
  match st with
  | [] => ([], [])
  | f :: fs =>
    if f.kind ≠ k ∧ indent = f.indent then
      ([LOut.closeT f.kind, LOut.openT k], (⟨k, indent⟩ : LFrame) :: fs)
    else ([], f :: fs)

/-- Processing of one line (the body of the `for` loop over lines). -/
def listStep (st : List LFrame) (line : List Char) : List LOut × List LFrame :=
  match parseListLine line with
  | none => ((st.map fun f => LOut.closeT f.kind) ++ [LOut.raw line], [])
  | some (sp, k, content) =>
    let indent := sp / 2
    let p1 := closeWhile st indent
    let p2 := openStage k indent p1.2
    let p3 := switchStage k indent p2.2
    (p1.1 ++ p2.1 ++ p3.1 ++ [LOut.item content], p3.2)

/-- The whole pass over the line array, with the final unwind of any
remaining open frames. -/
def listPassTok (st : List LFrame) : List (List Char) → List LOut
  | [] => st.map fun f => LOut.closeT f.kind
  | l :: ls =>
    let r := listStep st l
    r.1 ++ listPassTok r.2 ls

/-- Rendering of one output token to the `htmlLines` entry pushed by the
source. -/
def renderLOut : LOut → List Char
  | LOut.openT LKind.ul => chars "<ul>"
  | LOut.openT LKind.ol => chars "<ol>"
  | LOut.closeT LKind.ul => chars "</ul>"
  | LOut.closeT LKind.ol => chars "</ol>"
  | LOut.item s => chars "<li>" ++ s ++ chars "</li>"
  | LOut.raw s => s

/-- The nested-lists pass on the whole text: split on `/\r?\n/`, process
line by line, join with `\n`. -/
def nestedListsPassL (l : List Char) : List Char :=
  joinWith ['\n'] ((listPassTok [] (splitLinesRN l)).map renderLOut)

def nestedListsPass (s : String) : String := str (nestedListsPassL s.data)

/-! ### Balance of the list pass -/

/-- The tag sequence checker: open tags push, close tags must match the
top of the stack and pop it.  `some s'` means the emitted tags are a valid
(properly nested) sequence transforming stack `s` into `s'`. -/
def runTags : List LOut → List LKind → Option (List LKind)
  | [], s => some s
  | LOut.openT k :: r, s => runTags r (k :: s)
  | LOut.closeT _ :: _, [] => none
  | LOut.closeT k :: r, k' :: s => if k = k' then runTags r s else none
  | LOut.item _ :: r, s => runTags r s
  | LOut.raw _ :: r, s => runTags r s

def isOpenTok : LOut → Bool
  | LOut.openT _ => true
  | _ => false

def isCloseTok : LOut → Bool
  | LOut.closeT _ => true
  | _ => false

/-- The kinds of the frames on the stack, top first. -/
def kindsOf (st : List LFrame) : List LKind := st.map LFrame.kind

theorem runTags_append (a : List LOut) :
    ∀ b s, runTags (a ++ b) s = (runTags a s).bind (runTags b) := by
  induction a with
  | nil => intro b s; rfl
  | cons o r ih =>
    intro b s
    cases o with
    | openT k => simpa [runTags] using ih b (k :: s)
    | closeT k =>
      cases s with
      | nil => simp [runTags]
      | cons k' s =>
        by_cases h : k = k'
        · simpa [runTags, h] using ih b s
        · simp [runTags, h]
    | item c => simpa [runTags] using ih b s
    | raw c => simpa [runTags] using ih b s

theorem closeWhile_spec (indent : Nat) :
    ∀ st t, runTags (closeWhile st indent).1 (kindsOf st ++ t)
      = some (kindsOf (closeWhile st indent).2 ++ t) := by
  intro st
  induction st with
  | nil => intro t; rfl
  | cons f rest ih =>
    intro t
    by_cases h : indent < f.indent
    · simpa [closeWhile, h, kindsOf, runTags] using ih t
    · simp [closeWhile, h, kindsOf, runTags]

theorem closeAll_spec :
    ∀ (st : List LFrame) t, runTags (st.map fun f => LOut.closeT f.kind) (kindsOf st ++ t)
      = some t := by
  intro st
  induction st with
  | nil => intro t; rfl
  | cons f rest ih => intro t; simpa [kindsOf, runTags] using ih t

theorem openFrames_spec (k : LKind) (indent : Nat) :
    ∀ fuel j st t, runTags (openFrames k indent fuel j st).1 (kindsOf st ++ t)
      = some (kindsOf (openFrames k indent fuel j st).2 ++ t) := by
  intro fuel
  induction fuel with
  | zero => intro j st t; rfl
  | succ fuel ih =>
    intro j st t
    by_cases h : j ≤ indent ∧ j < 3
    · simpa [openFrames, h, runTags, kindsOf] using ih (j + 1) (⟨k, j⟩ :: st) t
    · simp [openFrames, h, runTags]

theorem openStage_spec (k : LKind) (indent : Nat) (st : List LFrame) (t : List LKind) :
    runTags (openStage k indent st).1 (kindsOf st ++ t)
      = some (kindsOf (openStage k indent st).2 ++ t) := by
  cases st with
  | nil => simpa [openStage] using openFrames_spec k indent 3 0 [] t
  | cons f fs =>
    by_cases h : f.indent < indent
    · simpa [openStage, h] using openFrames_spec k indent 3 (f.indent + 1) (f :: fs) t
    · simp [openStage, h, runTags]

theorem switchStage_spec (k : LKind) (indent : Nat) (st : List LFrame) (t : List LKind) :
    runTags (switchStage k indent st).1 (kindsOf st ++ t)
      = some (kindsOf (switchStage k indent st).2 ++ t) := by
  cases st with
  | nil => simp [switchStage, runTags]
  | cons f fs =>
    by_cases h : f.kind ≠ k ∧ indent = f.indent
    · simp [switchStage, h, runTags, kindsOf]
    · simp [switchStage, h, runTags, kindsOf]

theorem listStep_spec (st : List LFrame) (line : List Char) :
    ∀ t, runTags (listStep st line).1 (kindsOf st ++ t)
      = some (kindsOf (listStep st line).2 ++ t) := by
  intro t
  cases hp : parseListLine line with
  | none =>
    simp only [listStep, hp]
    rw [runTags_append, closeAll_spec st t]
    simp [runTags, kindsOf]
  | some v =>
    obtain ⟨sp, k, content⟩ := v
    simp only [listStep, hp, List.append_assoc]
    rw [runTags_append (closeWhile st (sp / 2)).1, closeWhile_spec]
    simp only [Option.some_bind]
    rw [runTags_append (openStage k (sp / 2) (closeWhile st (sp / 2)).2).1, openStage_spec]
    simp only [Option.some_bind]
    rw [runTags_append
      (switchStage k (sp / 2) (openStage k (sp / 2) (closeWhile st (sp / 2)).2).2).1,
      switchStage_spec]
    simp only [Option.some_bind]
    rfl

theorem listPassTok_spec :
    ∀ (ls : List (List Char)) (st : List LFrame),
      runTags (listPassTok st ls) (kindsOf st) = some [] := by
  intro ls
  induction ls with
  | nil =>
    intro st
    simpa using closeAll_spec st []
  | cons l ls ih =>
    intro st
    simp only [listPassTok]
    rw [runTags_append]
    have := listStep_spec st l []
    rw [List.append_nil] at this
    rw [this]
    simpa using ih (listStep st l).2

/-- A valid tag run transforming stack `s` into `s'` satisfies
`opens + |s| = closes + |s'|`; from the empty stack to the empty stack the
counts agree. -/
theorem runTags_counts :
    ∀ (ts : List LOut) (s s' : List LKind), runTags ts s = some s' →
      ts.countP isOpenTok + s.length = ts.countP isCloseTok + s'.length := by
  intro ts
  induction ts with
  | nil =>
    intro s s' h
    simp only [runTags, Option.some_inj] at h
    subst h; simp
  | cons o r ih =>
    intro s s' h
    cases o with
    | openT k =>
      have ih' := ih (k :: s) s' (by simpa [runTags] using h)
      simp only [List.countP_cons, List.length_cons, isOpenTok, isCloseTok,
        if_true, if_false] at ih' ⊢
      norm_num at ih' ⊢
      omega
    | closeT k =>
      cases s with
      | nil => simp [runTags] at h
      | cons k' s =>
        by_cases hk : k = k'
        · have ih' := ih s s' (by simpa [runTags, hk] using h)
          simp only [List.countP_cons, List.length_cons, isOpenTok, isCloseTok,
            if_true, if_false] at ih' ⊢
          norm_num at ih' ⊢
          omega
        · simp [runTags, hk] at h
    | item c =>
      have ih' := ih s s' (by simpa [runTags] using h)
      simp only [List.countP_cons, isOpenTok, isCloseTok, if_true, if_false] at ih' ⊢
      norm_num at ih' ⊢
      omega
    | raw c =>
      have ih' := ih s s' (by simpa [runTags] using h)
      simp only [List.countP_cons, isOpenTok, isCloseTok, if_true, if_false] at ih' ⊢
      norm_num at ih' ⊢
      omega

/-! ## Claim C3: the list pass is balanced -/

/-- **C3 (confirmed).**  For every input text, the tokens emitted by the
line-oriented list pass form a properly nested tag sequence starting and
ending with an empty stack (`runTags … = some []`: every close matches the
most recent open, and every open is eventually closed); consequently the
number of emitted open tags equals the number of emitted close tags.
Moreover the frame stack is empty immediately after processing any
non-list line, and the pass ends with the full unwind of the stack. -/
theorem c3_list_pass_balanced :
    (∀ s : String, runTags (listPassTok [] (splitLinesRN s.data)) [] = some []) ∧
    (∀ s : String,
      (listPassTok [] (splitLinesRN s.data)).countP isOpenTok
        = (listPassTok [] (splitLinesRN s.data)).countP isCloseTok) ∧
    (∀ (st : List LFrame) (line : List Char), parseListLine line = none →
      (listStep st line).2 = []) := by
  refine ⟨fun s => listPassTok_spec (splitLinesRN s.data) [], fun s => ?_, ?_⟩
  · have h := listPassTok_spec (splitLinesRN s.data) []
    have := runTags_counts _ _ _ h
    simpa using this
  · intro st line h
    simp [listStep, h]

/-- Witness for `c3_list_pass_balanced` at a concrete nested input. -/
theorem c3_list_pass_balanced_witness :
    runTags (listPassTok [] (splitLinesRN ("- a\n  - b\n    1. c\nend".data))) [] = some [] ∧
    (listStep [⟨LKind.ul, 0⟩] "plain".data).2 = [] := by
  exact ⟨c3_list_pass_balanced.1 "- a\n  - b\n    1. c\nend",
         c3_list_pass_balanced.2.2 [⟨LKind.ul, 0⟩] "plain".data (by decide)⟩

/-! ## Claim C5: indent quantisation and clamping -/

theorem takeWhile_replicate_space (rest : List Char)
    (h : rest.takeWhile (fun c => c = ' ') = []) :
    ∀ n, (List.replicate n ' ' ++ rest).takeWhile (fun c => c = ' ') = List.replicate n ' ' := by
  intro n
  induction n with
  | zero => simpa using h
  | succ n ih => simpa [List.replicate_succ, List.takeWhile_cons] using ih

/-- A line whose marker sits after seven or more leading spaces is not
recognised as a list item: the regex captures at most six spaces. -/
theorem parseListLine_deep (n : Nat) (rest : List Char) (h7 : 7 ≤ n)
    (h : rest.takeWhile (fun c => c = ' ') = []) :
    parseListLine (List.replicate n ' ' ++ rest) = none := by
  simp only [parseListLine, takeWhile_replicate_space rest h, List.length_replicate]
  rw [if_neg (by omega)]

/-- A `- ` item line with `n ≤ 6` leading spaces and terminator-free
content parses with `n` captured spaces (the indent level is computed as
`n / 2` by the caller). -/
theorem parseListLine_dash (n : Nat) (content : List Char) (h6 : n ≤ 6)
    (hsp : content.takeWhile (fun c => c = ' ') = [])
    (hnl : content.contains '\n' = false)
    (hcr : content.contains '\r' = false) :
    parseListLine (List.replicate n ' ' ++ '-' :: ' ' :: content)
      = some (n, LKind.ul, content) := by
  have hrest : (('-' :: ' ' :: content).takeWhile fun c => c = ' ') = [] := by
    simp [List.takeWhile_cons]
  have hmem : '\n' ∉ content := by
    simpa [List.contains] using hnl
  have hmem2 : '\r' ∉ content := by
    simpa [List.contains] using hcr
  simp only [parseListLine, takeWhile_replicate_space _ hrest, List.length_replicate,
    List.drop_left' (by simp : (List.replicate n ' ').length = n)]
  rw [if_pos h6]
  simp [List.takeWhile_cons, hsp, hmem, hmem2]

/-- **C5 (amended).**  List indentation is quantised at 2 spaces per level
and, *within the six leading spaces the line regex can capture*, clamped
to the maximum nesting depth 3: a `- ` item with `n ≤ 6` leading spaces
and line-terminator-free content (`.` in the line regex matches neither
`\n` nor `\r`) produces an `<li>` wrapped in `min (n/2 + 1) 3` nested
`<ul>`s.  But a line whose marker is indented by seven or more spaces is
not recognised as a list item at all: it is passed through unchanged, not
clamped. -/
theorem c5_indent_clamped_amended :
    (∀ (n : Nat) (content : List Char), n ≤ 6 →
      content.takeWhile (fun c => c = ' ') = [] →
      content.contains '\n' = false →
      content.contains '\r' = false →
      listPassTok [] [List.replicate n ' ' ++ '-' :: ' ' :: content]
        = List.replicate (min (n / 2 + 1) 3) (LOut.openT LKind.ul)
            ++ [LOut.item content]
            ++ List.replicate (min (n / 2 + 1) 3) (LOut.closeT LKind.ul)) ∧
    (∀ (n : Nat) (rest : List Char), 7 ≤ n →
      rest.takeWhile (fun c => c = ' ') = [] →
      listPassTok [] [List.replicate n ' ' ++ rest]
        = [LOut.raw (List.replicate n ' ' ++ rest)]) := by
  constructor
  · intro n content h6 hsp hnl hcr
    have hp := parseListLine_dash n content h6 hsp hnl hcr
    simp only [listPassTok, listStep, hp]
    have hv : n / 2 = 0 ∨ n / 2 = 1 ∨ n / 2 = 2 ∨ n / 2 = 3 := by omega
    rcases hv with hv | hv | hv | hv <;>
      rw [hv] <;>
      simp [closeWhile, openStage, openFrames, switchStage, listPassTok, List.replicate]
  · intro n rest h7 hsp
    have hp := parseListLine_deep n rest h7 hsp
    simp [listPassTok, listStep, hp]

/-- Witness for `c5_indent_clamped_amended` at concrete inputs: six leading
spaces clamp to depth 3, seven leading spaces pass through. -/
theorem c5_indent_clamped_amended_witness :
    listPassTok [] ["      - a".data]
      = [LOut.openT LKind.ul, LOut.openT LKind.ul, LOut.openT LKind.ul,
         LOut.item "a".data,
         LOut.closeT LKind.ul, LOut.closeT LKind.ul, LOut.closeT LKind.ul] ∧
    listPassTok [] ["       - a".data] = [LOut.raw "       - a".data] := by
  constructor
  · have := c5_indent_clamped_amended.1 6 "a".data (by decide) (by decide) (by decide)
      (by decide)
    simpa using this
  · have := c5_indent_clamped_amended.2 7 "- a".data (by decide) (by decide)
    simpa using this

/-- **C5 counterexample.**  The claim says every line of the form
"leading spaces, list marker, content" is rendered as an `<li>` no matter
how deep the indentation; but with seven leading spaces the line regex
(`^([ ]{0,6})…`) does not match, the pass emits the line unchanged, and no
`<li>` appears. -/
theorem c5_deep_indent_counterexample :
    nestedListsPass "       - a" = "       - a" ∧
    strContainsSub (nestedListsPass "       - a") "<li>" = false := by
  constructor
  · decide
  · decide

/-! ### Tables pass, per-block transform (build.ts lines 224-244)

The replacer applied to each matched table block.  The HTML is modelled as
a token list (`TTok`) whose rendering is exactly the string the source
builds, so that `<th>`/`<tr>` elements *emitted by the pass* can be
counted without confusing them with cell text. -/

inductive TTok where
  | lit (s : List Char)
  | openTh
  | closeTh
  | openTd
  | closeTd
  | openTr
  | closeTr
deriving DecidableEq, Repr

def renderTTok : TTok → List Char
  | TTok.lit s => s
  | TTok.openTh => chars "<th>"
  | TTok.closeTh => chars "</th>"
  | TTok.openTd => chars "<td>"
  | TTok.closeTd => chars "</td>"
  | TTok.openTr => chars "<tr>"
  | TTok.closeTr => chars "</tr>"

def renderTToks : List TTok → List Char
  | [] => []
  | t :: ts => renderTTok t ++ renderTToks ts

/-- `row.split('|').slice(1, -1).map(cell => cell.trim())`. -/
def parseRow (line : List Char) : List (List Char) :=
  (((splitOnCharL '|' line).drop 1).dropLast).map trimL

/-- `lines[1].replace(/\s/g, '').match(/^\|?[-:|]+\|?$/)`: after removing
all whitespace the separator row must be nonempty and consist only of
`-`, `:` and `|` (the optional edge pipes of the regex are subsumed by the
character class). -/
def sepValid (line : List Char) : Bool :=
  let c := line.filter (fun ch => !jsWs ch)
  !c.isEmpty && c.all (fun ch => ch = '-' || ch = ':' || ch = '|')

/-- `for (const cell of headerCells) html += `<th>${cell}</th>`;`. -/
def headerToks : List (List Char) → List TTok
  | [] => []
  | c :: cs => TTok.openTh :: TTok.lit c :: TTok.closeTh :: headerToks cs

/-- `if (row.length === 0 || (row.length === 1 && row[0] === '')) continue;`. -/
def skipRow : List (List Char) → Bool
  | [] => true
  | [[]] => true
  | _ => false

def cellToks : List (List Char) → List TTok
  | [] => []
  | c :: cs => TTok.openTd :: TTok.lit c :: TTok.closeTd :: cellToks cs

def rowToks (r : List (List Char)) : List TTok :=
  if skipRow r then [] else TTok.openTr :: cellToks r ++ [TTok.closeTr]

def rowsToks : List (List Char) → List TTok
  | [] => []
  | ln :: ls => rowToks (parseRow ln) ++ rowsToks ls

/-- The table HTML built from the block's lines (header, separator check
already done, rows = `lines.slice(2)`). -/
def tableToks (lines : List (List Char)) : List TTok :=
  TTok.lit (chars "<table><thead><tr>")
    :: headerToks (parseRow (lines.headD []))
    ++ TTok.lit (chars "</tr></thead><tbody>")
    :: rowsToks (lines.drop 2)
    ++ [TTok.lit (chars "</tbody></table>")]

/-- The per-block replacer: `block.trim().split(/\r?\n/)`, the two guard
checks, then the table HTML wrapped in the responsive container; a block
failing a guard is returned unchanged. -/
def tableBlockTransform (block : List Char) : List Char :=
  let lines := splitLinesRN (trimL block)
  if lines.length < 2 then block
  else if startsL (chars "|") (lines.headD []) && sepValid (lines.getD 1 []) then
    chars "<div class=\"table-responsive\">" ++ renderTToks (tableToks lines)
      ++ chars "</div>"
  else block

def isThTok : TTok → Bool
  | TTok.openTh => true
  | _ => false

def isTrTok : TTok → Bool
  | TTok.openTr => true
  | _ => false

theorem headerToks_count (cells : List (List Char)) :
    (headerToks cells).countP isThTok = cells.length := by
  induction cells with
  | nil => rfl
  | cons c cs ih => simp [headerToks, List.countP_cons, isThTok, ih]

theorem headerToks_count_tr (cells : List (List Char)) :
    (headerToks cells).countP isTrTok = 0 := by
  induction cells with
  | nil => rfl
  | cons c cs ih => simp [headerToks, List.countP_cons, isTrTok, ih]

theorem cellToks_count_th (cells : List (List Char)) :
    (cellToks cells).countP isThTok = 0 := by
  induction cells with
  | nil => rfl
  | cons c cs ih => simp [cellToks, List.countP_cons, isThTok, ih]

theorem cellToks_count_tr (cells : List (List Char)) :
    (cellToks cells).countP isTrTok = 0 := by
  induction cells with
  | nil => rfl
  | cons c cs ih => simp [cellToks, List.countP_cons, isTrTok, ih]

theorem rowsToks_count_th (ls : List (List Char)) :
    (rowsToks ls).countP isThTok = 0 := by
  induction ls with
  | nil => rfl
  | cons ln ls ih =>
    simp only [rowsToks, List.countP_append, ih, Nat.add_zero, rowToks]
    by_cases h : skipRow (parseRow ln)
    · simp [h]
    · simp [h, List.countP_cons, isThTok, cellToks_count_th]

theorem skipRow_eq_false (r : List (List Char)) (h : ∃ c ∈ r, c ≠ []) :
    skipRow r = false := by
  obtain ⟨c, hc, hne⟩ := h
  cases r with
  | nil => cases hc
  | cons x rs =>
    cases rs with
    | cons y t => simp [skipRow]
    | nil =>
      simp only [List.mem_singleton] at hc
      subst hc
      cases c with
      | nil => exact absurd rfl hne
      | cons a as => simp [skipRow]

theorem rowsToks_count_tr (ls : List (List Char))
    (h : ∀ r ∈ ls, ∃ c ∈ parseRow r, c ≠ []) :
    (rowsToks ls).countP isTrTok = ls.length := by
  induction ls with
  | nil => rfl
  | cons ln ls ih =>
    have hskip : skipRow (parseRow ln) = false :=
      skipRow_eq_false _ (h ln (List.mem_cons_self ln ls))
    simp only [rowsToks, List.countP_append, rowToks, hskip, Bool.false_eq_true, if_false,
      List.countP_cons, isTrTok, cellToks_count_tr, List.length_cons]
    rw [ih (fun r hr => h r (List.mem_cons_of_mem ln hr))]
    simp [List.countP_append, cellToks_count_tr, List.countP_cons, isTrTok]
    omega

/-! ## Claim C4: table well-formedness -/

/-- **C4 (confirmed).**  For a block whose first line starts with `|` and
whose second line is a valid separator row, the table pass emits exactly
one `<th>` per header cell and — when each of the `N` remaining row lines
has at least one non-empty cell — exactly `N` `<tr>` in the body; a block
whose separator row is missing (fewer than two lines) or malformed is
returned character-for-character unchanged. -/
theorem c4_table_wellformed :
    (∀ lines : List (List Char),
      (tableToks lines).countP isThTok = (parseRow (lines.headD [])).length ∧
      ((∀ r ∈ lines.drop 2, ∃ c ∈ parseRow r, c ≠ []) →
        (tableToks lines).countP isTrTok = (lines.drop 2).length)) ∧
    (∀ block : List Char,
      2 ≤ (splitLinesRN (trimL block)).length →
      startsL (chars "|") ((splitLinesRN (trimL block)).headD []) = true →
      sepValid ((splitLinesRN (trimL block)).getD 1 []) = true →
      tableBlockTransform block
        = chars "<div class=\"table-responsive\">"
            ++ renderTToks (tableToks (splitLinesRN (trimL block)))
            ++ chars "</div>") ∧
    (∀ block : List Char,
      (splitLinesRN (trimL block)).length < 2 ∨
        sepValid ((splitLinesRN (trimL block)).getD 1 []) = false →
      tableBlockTransform block = block) := by
  refine ⟨fun lines => ⟨?_, fun h => ?_⟩, fun block h2 hs hsep => ?_, fun block h => ?_⟩
  · simp [tableToks, List.countP_cons, List.countP_append, isThTok,
      headerToks_count, rowsToks_count_th]
  · simp [tableToks, List.countP_cons, List.countP_append, isTrTok,
      headerToks_count_tr, rowsToks_count_tr _ h]
  · simp only [tableBlockTransform]
    rw [if_neg (by omega), if_pos (by rw [Bool.and_eq_true]; exact ⟨hs, hsep⟩)]
  · simp only [tableBlockTransform]
    rcases h with h | h
    · rw [if_pos h]
    · by_cases h2 : (splitLinesRN (trimL block)).length < 2
      · rw [if_pos h2]
      · rw [if_neg h2,
          if_neg (fun hcond => by
            rw [Bool.and_eq_true] at hcond
            rw [h] at hcond
            exact Bool.false_ne_true hcond.2)]

/-- Witness for `c4_table_wellformed` at a concrete 2-column, 2-row
table block and a concrete malformed block. -/
theorem c4_table_wellformed_witness :
    (tableToks (splitLinesRN (trimL "| A | B |\n|---|---|\n| 1 | 2 |\n| 3 | 4 |\n".data))).countP
        isTrTok = 2 ∧
    tableBlockTransform "| A | B |\n| no separator |\n".data
      = "| A | B |\n| no separator |\n".data := by
  constructor
  · have := ((c4_table_wellformed.1
      (splitLinesRN (trimL "| A | B |\n|---|---|\n| 1 | 2 |\n| 3 | 4 |\n".data))).2
        (by decide))
    rw [this]
    decide
  · exact c4_table_wellformed.2.2 _ (Or.inr (by decide))

/-! ### Footnotes (build.ts lines 271-296)

Three passes: collect-and-remove definitions anchored at line starts
(`/^\[\^([^\]]+)\]:\s*(.+)$/gm`), collect-and-remove definitions preceded
by a literal newline (`/\n\[\^([^\]]+)\]:\s*(.+)$/gm`, only filling absent
names), then rewrite references `/\[\^([^\]]+)\](?!:)/g` with first-seen
numbering. -/

/-- is the scan position at a line start (`^` with the `m` flag)?  In
JavaScript a multiline `^` matches at the start of the input and after any
line terminator, i.e. after `\n` or `\r` for ASCII inputs. -/
def atLineStart : Option Char → Bool
  | none => true
  | some c => c = '\n' || c = '\r'

/-- Insertion-ordered JavaScript-object assignment: update in place if the
key exists, else append. -/
def setAssoc (m : List (List Char × List Char)) (k v : List Char) :
    List (List Char × List Char) :=
  match m with
  | [] => [(k, v)]
  | (k', v') :: rest => if k' = k then (k, v) :: rest else (k', v') :: setAssoc rest k v

/-- Match of `\[\^([^\]]+)\]:\s*(.+)$` anchored at the head of `l` (the
caller checks the `^`-anchor / leading `\n`).  `\s*` is greedy and may
cross line terminators; `.` excludes both `\n` and `\r`; `$` with the `m`
flag matches at the end of a line (before `\n` or `\r`, or at the end of
the input).  The regex engine therefore takes the whitespace run after the
colon and backtracks just enough for `(.+)` to start at a non-terminator
character, so: if a non-whitespace character follows the run, the
definition is the rest of that character's line; otherwise (whitespace to
end of string) the definition is the last non-terminator whitespace
character of the run, if any.  Returns (whole-match length, name, raw
definition text). -/
def footnoteDefAt (l : List Char) : Option (Nat × List Char × List Char) :=
  if startsL (chars "[^") l then
    let rest := l.drop 2
    let name := rest.takeWhile (fun c => c ≠ ']')
    if name.length = 0 then none
    else
      match rest.drop name.length with
      | ']' :: ':' :: rest2 =>
        let w := rest2.takeWhile jsWs
        match rest2.drop w.length with
        | c :: cs =>
          let defTxt := c :: cs.takeWhile (fun c => c ≠ '\n' && c ≠ '\r')
          some (2 + name.length + 2 + w.length + defTxt.length, name, defTxt)
        | [] =>
          let tl := w.reverse.takeWhile (fun c => c = '\n' || c = '\r')
          if tl.length = w.length then none
          else
            let defTxt := w.drop (w.length - tl.length - 1)
            some (2 + name.length + 2 + (w.length - tl.length),
                  name, defTxt.takeWhile (fun c => c ≠ '\n' && c ≠ '\r'))
      | _ => none
  else none

/-- Step of the first definition pass (`^`-anchored, removal, overwrite
collection of `def.trim()`). -/
def footnoteDefs1Step (st : List (List Char × List Char)) (prev : Option Char)
    (l : List Char) : Option (Nat × List Char × List (List Char × List Char)) :=
  if atLineStart prev then
    match footnoteDefAt l with
    | some (len, name, defTxt) => some (len, [], setAssoc st name (trimL defTxt))
    | none => none
  else none

/-- Step of the second definition pass (a literal `\n` before the
definition, removed with it; only absent or empty entries are filled). -/
def footnoteDefs2Step (st : List (List Char × List Char)) (_ : Option Char)
    (l : List Char) : Option (Nat × List Char × List (List Char × List Char)) :=
  match l with
  | '\n' :: rest =>
    (footnoteDefAt rest).map fun r =>
      (1 + r.1, [],
        match st.lookup r.2.1 with
        | some v => if v = [] then setAssoc st r.2.1 (trimL r.2.2) else st
        | none => setAssoc st r.2.1 (trimL r.2.2))
  | _ => none

/-- Match of `\[\^([^\]]+)\](?!:)` anchored at the head: a reference, not
a definition (negative lookahead for `:`). -/
def footnoteRefAt (l : List Char) : Option (Nat × List Char) :=
  if startsL (chars "[^") l then
    let rest := l.drop 2
    let name := rest.takeWhile (fun c => c ≠ ']')
    if name.length = 0 then none
    else
      match rest.drop name.length with
      | ']' :: rest2 => if rest2.head? = some ':' then none else some (2 + name.length + 1, name)
      | _ => none
  else none

/-- `<sup class="footnote-ref"><a href="#footnote-N" id="footnote-ref-N">[N]</a></sup>`. -/
def refHtml (num : Nat) : List Char :=
  chars "<sup class=\"footnote-ref\"><a href=\"#footnote-" ++ natChars num
    ++ chars "\" id=\"footnote-ref-" ++ natChars num ++ chars "\">["
    ++ natChars num ++ chars "]</a></sup>"

/-- Step of the reference pass; the state is `(footnoteCounter,
footnoteRefs)` with the refs map in insertion order. -/
def footnoteRefStep (st : Nat × List (List Char × Nat)) (_ : Option Char)
    (l : List Char) : Option (Nat × List Char × (Nat × List (List Char × Nat))) :=
  match footnoteRefAt l with
  | some (len, name) =>
    match st.2.lookup name with
    | some num => some (len, refHtml num, st)
    | none => some (len, refHtml st.1, (st.1 + 1, st.2 ++ [(name, st.1)]))
  | none => none

/-- The reference pass alone, started with counter 1 and an empty map. -/
def footnoteRefsPassL (l : List Char) : List Char × (Nat × List (List Char × Nat)) :=
  gRepl _ footnoteRefStep (l.length + 1) (1, []) none l

/-- The whole footnotes phase: the two definition passes followed by the
reference pass.  Returns (text, collected definitions, reference map). -/
def footnotesPhaseL (l : List Char) :
    List Char × List (List Char × List Char) × List (List Char × Nat) :=
  let r1 := gRepl _ footnoteDefs1Step (l.length + 1) [] none l
  let r2 := gRepl _ footnoteDefs2Step (r1.1.length + 1) r1.2 none r1.1
  let r3 := footnoteRefsPassL r2.1
  (r3.1, r2.2, r3.2.2)

/-- Number assigned to a reference name by the reference pass. -/
def footnoteRefNumber (s name : String) : Option Nat :=
  ((footnoteRefsPassL s.data).2.2).lookup name.data

/-! ### First-seen enumeration of the reference pass -/

/-- The distinct reference names not in `seen`, in first-seen textual
order, collected along the same traversal as the reference pass. -/
def refNamesFrom (seen : List (List Char)) : Nat → List Char → List (List Char)
  | 0, _ => []
  | _ + 1, [] => []
  | fuel + 1, c :: cs =>
    match footnoteRefAt (c :: cs) with
    | some (0, name) =>
      if name ∈ seen then refNamesFrom seen fuel cs
      else name :: refNamesFrom (seen ++ [name]) fuel cs
    | some (k + 1, name) =>
      if name ∈ seen then refNamesFrom seen fuel (cs.drop k)
      else name :: refNamesFrom (seen ++ [name]) fuel (cs.drop k)
    | none => refNamesFrom seen fuel cs

/-- `enumRefs b [n₀, n₁, …] = [(n₀, b), (n₁, b+1), …]`. -/
def enumRefs (b : Nat) : List (List Char) → List (List Char × Nat)
  | [] => []
  | n :: ns => (n, b) :: enumRefs (b + 1) ns

theorem enumRefs_append (b : Nat) :
    ∀ ns m, enumRefs b (ns ++ [m]) = enumRefs b ns ++ [(m, b + ns.length)] := by
  intro ns
  induction ns generalizing b with
  | nil => intro m; simp [enumRefs]
  | cons n ns ih =>
    intro m
    show ((n, b) :: enumRefs (b + 1) (ns ++ [m]) : List (List Char × Nat))
      = (n, b) :: (enumRefs (b + 1) ns ++ [(m, b + (n :: ns).length)])
    rw [ih (b + 1) m]
    have hb : b + 1 + ns.length = b + (n :: ns).length := by
      simp only [List.length_cons]; omega
    rw [hb]

theorem enumRefs_lookup_none (b : Nat) :
    ∀ ns name, name ∉ ns → (enumRefs b ns).lookup name = none := by
  intro ns
  induction ns generalizing b with
  | nil => intro name h; rfl
  | cons n ns ih =>
    intro name h
    simp only [List.mem_cons, not_or] at h
    have hne : (name == n) = false := by
      simp [beq_eq_false_iff_ne]
      exact h.1
    simp [enumRefs, List.lookup, hne, ih (b + 1) name h.2]

theorem enumRefs_lookup_mem (b : Nat) :
    ∀ ns name, name ∈ ns → (enumRefs b ns).lookup name ≠ none := by
  intro ns
  induction ns generalizing b with
  | nil => intro name h; cases h
  | cons n ns ih =>
    intro name h
    by_cases he : name = n
    · subst he
      simp [enumRefs, List.lookup]
    · simp only [List.mem_cons] at h
      have hmem : name ∈ ns := h.resolve_left he
      have hne : (name == n) = false := by
        simp [beq_eq_false_iff_ne]; exact he
      simp [enumRefs, List.lookup, hne, ih (b + 1) name hmem]

theorem enumRefs_lookup_get (b : Nat) :
    ∀ ns k name, ns.Nodup → ns.get? k = some name →
      (enumRefs b ns).lookup name = some (b + k) := by
  intro ns
  induction ns generalizing b with
  | nil => intro k name _ h; simp at h
  | cons n ns ih =>
    intro k name hnd h
    cases k with
    | zero =>
      simp only [List.get?_eq_getElem?, List.getElem?_cons_zero, Option.some_inj] at h
      subst h
      simp [enumRefs, List.lookup]
    | succ k =>
      simp only [List.get?_eq_getElem?, List.getElem?_cons_succ] at h
      have hnd' := List.nodup_cons.mp hnd
      have hne : (name == n) = false := by
        simp only [beq_eq_false_iff_ne, ne_eq]
        intro he
        subst he
        exact hnd'.1 (List.getElem?_mem h)
      simp only [enumRefs, List.lookup, hne]
      have := ih (b + 1) k name hnd'.2 (by simpa using h)
      rw [this]
      congr 1
      omega

theorem refNamesFrom_nodup (fuel : Nat) :
    ∀ l (seen : List (List Char)), seen.Nodup →
      (seen ++ refNamesFrom seen fuel l).Nodup := by
  induction fuel with
  | zero => intro l seen h; simpa [refNamesFrom] using h
  | succ fuel ih =>
    intro l seen h
    match l with
    | [] => simpa [refNamesFrom] using h
    | c :: cs =>
      rw [refNamesFrom]
      cases hm : footnoteRefAt (c :: cs) with
      | none => exact ih cs seen h
      | some v =>
        obtain ⟨len, name⟩ := v
        cases len with
        | zero =>
          by_cases hmem : name ∈ seen
          · simpa [hmem] using ih cs seen h
          · have h' : (seen ++ [name]).Nodup := by
              simp [List.nodup_append, h, hmem]
            have := ih cs (seen ++ [name]) h'
            simpa [hmem, List.append_assoc] using this
        | succ k =>
          by_cases hmem : name ∈ seen
          · simpa [hmem] using ih (cs.drop k) seen h
          · have h' : (seen ++ [name]).Nodup := by
              simp [List.nodup_append, h, hmem]
            have := ih (cs.drop k) (seen ++ [name]) h'
            simpa [hmem, List.append_assoc] using this

/-- The state invariant of the reference pass: starting from the
enumeration of `seen`, the pass ends in the enumeration of `seen` extended
by the yet-unseen names in first-seen order. -/
theorem refsPass_state (fuel : Nat) :
    ∀ (l : List Char) prev (seen : List (List Char)),
      (gRepl _ footnoteRefStep fuel (seen.length + 1, enumRefs 1 seen) prev l).2
        = ((seen ++ refNamesFrom seen fuel l).length + 1,
           enumRefs 1 (seen ++ refNamesFrom seen fuel l)) := by
  induction fuel with
  | zero => intro l prev seen; simp [gRepl, refNamesFrom]
  | succ fuel ih =>
    intro l prev seen
    match l with
    | [] => simp [gRepl, refNamesFrom]
    | c :: cs =>
      rw [refNamesFrom]
      cases hm : footnoteRefAt (c :: cs) with
      | none =>
        simp only [gRepl, footnoteRefStep, hm]
        exact ih cs (some c) seen
      | some v =>
        obtain ⟨len, name⟩ := v
        by_cases hmem : name ∈ seen
        · have hlk : (enumRefs 1 seen).lookup name ≠ none := enumRefs_lookup_mem 1 seen name hmem
          cases hlkv : (enumRefs 1 seen).lookup name with
          | none => exact absurd hlkv hlk
          | some num =>
            cases len with
            | zero =>
              simp only [gRepl, footnoteRefStep, hm, hlkv, hmem, if_true]
              exact ih cs (some c) seen
            | succ k =>
              simp only [gRepl, footnoteRefStep, hm, hlkv, hmem, if_true]
              exact ih (cs.drop k) (some ((c :: cs).getD k c)) seen
        · have hlkv : (enumRefs 1 seen).lookup name = none := enumRefs_lookup_none 1 seen name hmem
          have hst : ((seen.length + 1) + 1, enumRefs 1 seen ++ [(name, seen.length + 1)])
              = ((seen ++ [name]).length + 1, enumRefs 1 (seen ++ [name])) := by
            rw [enumRefs_append]
            have hb : (1 : Nat) + seen.length = seen.length + 1 := by omega
            rw [hb]
            simp
          cases len with
          | zero =>
            simp only [gRepl, footnoteRefStep, hm, hlkv, hmem, if_false]
            rw [hst]
            have := ih cs (some c) (seen ++ [name])
            rw [this]
            simp [List.append_assoc]
          | succ k =>
            simp only [gRepl, footnoteRefStep, hm, hlkv, hmem, if_false]
            rw [hst]
            have := ih (cs.drop k) (some ((c :: cs).getD k c)) (seen ++ [name])
            rw [this]
            simp [List.append_assoc]

/-- The names referenced in a text, distinct, in first-seen order. -/
def firstRefNames (l : List Char) : List (List Char) :=
  refNamesFrom [] (l.length + 1) l

/-- The `k`-th distinct first-seen reference name is numbered `k + 1`. -/
theorem refsPass_first_seen (l : List Char) (k : Nat) (name : List Char)
    (h : (firstRefNames l).get? k = some name) :
    (footnoteRefsPassL l).2.2.lookup name = some (k + 1) := by
  have hstate := refsPass_state (l.length + 1) l none []
  simp only [List.nil_append, List.length_nil] at hstate
  have hzero : (0 : Nat) + 1 = 1 := rfl
  simp only [footnoteRefsPassL]
  have : (gRepl _ footnoteRefStep (l.length + 1) (1, []) none l).2
      = ((refNamesFrom [] (l.length + 1) l).length + 1,
         enumRefs 1 (refNamesFrom [] (l.length + 1) l)) := by
    simpa [enumRefs] using hstate
  rw [this]
  have hnd : (refNamesFrom [] (l.length + 1) l).Nodup := by
    simpa using refNamesFrom_nodup (l.length + 1) l [] List.nodup_nil
  have := enumRefs_lookup_get 1 (refNamesFrom [] (l.length + 1) l) k name hnd
    (by simpa [firstRefNames] using h)
  rw [this]
  congr 1
  omega

theorem takeWhile_append_stop (p : Char → Bool) (b : Char) (r : List Char) :
    ∀ a : List Char, (∀ c ∈ a, p c = true) → p b = false →
      (a ++ b :: r).takeWhile p = a := by
  intro a
  induction a with
  | nil => intro _ hb; simp [List.takeWhile_cons, hb]
  | cons x xs ih =>
    intro ha hb
    have hx : p x = true := ha x (List.mem_cons_self x xs)
    simp only [List.cons_append, List.takeWhile_cons, hx, if_true]
    rw [ih (fun c hc => ha c (List.mem_cons_of_mem x hc)) hb]

theorem footnoteRefAt_none_of_no_bracket (l : List Char) (h : '[' ∉ l) :
    footnoteRefAt l = none := by
  cases l with
  | nil => rfl
  | cons c cs =>
    have hc : c ≠ '[' := by
      intro he
      exact h (by rw [he]; exact List.mem_cons_self _ _)
    have hs : startsL (chars "[^") (c :: cs) = false := by
      show (decide ('[' = c) && startsL ['^'] cs) = false
      rw [decide_eq_false (fun he => hc he.symm)]
      rfl
    unfold footnoteRefAt
    rw [hs]
    simp

theorem noMatchB_ref_of_no_bracket : ∀ l : List Char, '[' ∉ l →
    noMatchB footnoteRefAt l = true := by
  intro l
  induction l with
  | nil => intro h; rfl
  | cons c cs ih =>
    intro h
    have hm : '[' ∉ cs := fun hc => h (List.mem_cons_of_mem c hc)
    simp only [noMatchB, footnoteRefAt_none_of_no_bracket (c :: cs) h, Option.isNone_none,
      Bool.true_and]
    exact ih hm

/-- A `[^name]:` definition prefix is rejected by the reference matcher:
the negative lookahead for `:` fails. -/
theorem footnoteRefAt_def_line (name rest : List Char)
    (hne : name ≠ []) (hb : ']' ∉ name) :
    footnoteRefAt ('[' :: '^' :: name ++ ']' :: ':' :: rest) = none := by
  have htw : (name ++ ']' :: ':' :: rest).takeWhile (fun c => c ≠ ']') = name :=
    takeWhile_append_stop _ _ _ name
      (fun c hc => by
        simp only [ne_eq, decide_eq_true_eq]
        intro he
        exact hb (he ▸ hc))
      (by simp)
  have hstart : startsL (chars "[^") ('[' :: '^' :: name ++ ']' :: ':' :: rest) = true := rfl
  have hdrop2 : ('[' :: '^' :: name ++ ']' :: ':' :: rest).drop 2
      = name ++ ']' :: ':' :: rest := rfl
  unfold footnoteRefAt
  rw [hstart]
  simp only [if_true, hdrop2, htw]
  rw [if_neg (by simpa using hne)]
  rw [show (name ++ ']' :: ':' :: rest).drop name.length = ']' :: ':' :: rest from
    List.drop_left name (']' :: ':' :: rest)]
  simp

/-! ## Claim C6: footnote numbering -/

/-- **C6 counterexample.**  The claim quantifies over *every* document in
which `[^b]` occurs before `[^a]`; in `"x[^c] y[^b] z[^a]"` the reference
`[^b]` does occur before `[^a]`, yet `b` is numbered 2 and `a` is numbered
3 because `[^c]` is seen first. -/
theorem c6_numbering_counterexample :
    footnoteRefNumber "x[^c] y[^b] z[^a]" "b" = some 2 ∧
    footnoteRefNumber "x[^c] y[^b] z[^a]" "a" = some 3 ∧
    ¬(footnoteRefNumber "x[^c] y[^b] z[^a]" "b" = some 1 ∧
      footnoteRefNumber "x[^c] y[^b] z[^a]" "a" = some 2) := by
  refine ⟨by decide, by decide, by decide⟩

/-- **C6 (amended).**  Footnote numbering is assigned in first-seen
textual order of references and is independent of definition order: the
`k`-th distinct first-seen reference name is numbered `k+1`; in
particular, when `b` and `a` are the *first two* distinct reference names
(with `b` first), `b` is numbered 1 and `a` is numbered 2.  Repeated
references to the same name reuse the same number, and a `[^name]:`
definition line is never itself rewritten as a reference. -/
theorem c6_numbering_first_seen_amended :
    (∀ (l : List Char) (k : Nat) (name : List Char),
      (firstRefNames l).get? k = some name →
      (footnoteRefsPassL l).2.2.lookup name = some (k + 1)) ∧
    (∀ (l : List Char) (b a : List Char) (t : List (List Char)),
      firstRefNames l = b :: a :: t →
      (footnoteRefsPassL l).2.2.lookup b = some 1 ∧
      (footnoteRefsPassL l).2.2.lookup a = some 2) ∧
    (∀ name rest : List Char, name ≠ [] → ']' ∉ name → '[' ∉ name → '[' ∉ rest →
      (footnoteRefsPassL ('[' :: '^' :: name ++ ']' :: ':' :: rest)).1
        = '[' :: '^' :: name ++ ']' :: ':' :: rest) ∧
    ((footnoteRefsPassL "x[^a] y[^a]".data).1
        = "x".data ++ refHtml 1 ++ " y".data ++ refHtml 1 ∧
      (footnoteRefsPassL "x[^a] y[^a]".data).2.2 = [("a".data, 1)]) ∧
    ((footnotesPhaseL "t[^b] u[^a]\n[^b]: B\n[^a]: A".data).1
        = (footnotesPhaseL "t[^b] u[^a]\n[^a]: A\n[^b]: B".data).1 ∧
      (footnotesPhaseL "t[^b] u[^a]\n[^b]: B\n[^a]: A".data).2.2
        = (footnotesPhaseL "t[^b] u[^a]\n[^a]: A\n[^b]: B".data).2.2 ∧
      (footnotesPhaseL "t[^b] u[^a]\n[^a]: A\n[^b]: B".data).2.2.lookup "b".data
        = some 1) := by
  refine ⟨refsPass_first_seen, ?_, ?_, ⟨by decide, by decide⟩, by decide, by decide, by decide⟩
  · intro l b a t h
    constructor
    · exact refsPass_first_seen l 0 b (by simp [h])
    · exact refsPass_first_seen l 1 a (by simp [h])
  · intro name rest hne hb hn hr
    have hline : '[' ∉ ('^' :: name ++ ']' :: ':' :: rest) := by
      intro hmem
      rcases List.mem_cons.mp hmem with h1 | h1
      · exact absurd h1 (by decide)
      rcases List.mem_append.mp h1 with h2 | h2
      · exact hn h2
      rcases List.mem_cons.mp h2 with h3 | h3
      · exact absurd h3 (by decide)
      rcases List.mem_cons.mp h3 with h4 | h4
      · exact absurd h4 (by decide)
      · exact hr h4
    have hnm : noMatchB footnoteRefAt ('[' :: '^' :: name ++ ']' :: ':' :: rest) = true := by
      show ((footnoteRefAt ('[' :: '^' :: name ++ ']' :: ':' :: rest)).isNone
            && noMatchB footnoteRefAt ('^' :: name ++ ']' :: ':' :: rest)) = true
      rw [footnoteRefAt_def_line name rest hne hb,
        noMatchB_ref_of_no_bracket _ hline]
      rfl
    have hid := gRepl_no_match _ footnoteRefStep
      (('[' :: '^' :: name ++ ']' :: ':' :: rest).length + 1) (1, []) none
      ('[' :: '^' :: name ++ ']' :: ':' :: rest) (Nat.lt_succ_self _)
      (fun p t ht => by
        have hnone := noMatchB_suffix footnoteRefAt _ hnm t ht
        simp [footnoteRefStep, hnone])
    simp only [footnoteRefsPassL, hid]

/-- Witness for `c6_numbering_first_seen_amended` at concrete inputs. -/
theorem c6_numbering_first_seen_amended_witness :
    (footnoteRefsPassL "x[^b] y[^a]".data).2.2.lookup "b".data = some 1 ∧
    (footnoteRefsPassL "x[^b] y[^a]".data).2.2.lookup "a".data = some 2 ∧
    (footnoteRefsPassL "[^note]: here".data).1 = "[^note]: here".data := by
  refine ⟨?_, ?_, ?_⟩
  · exact (c6_numbering_first_seen_amended.2.1 "x[^b] y[^a]".data "b".data "a".data []
      (by decide)).1
  · exact (c6_numbering_first_seen_amended.2.1 "x[^b] y[^a]".data "b".data "a".data []
      (by decide)).2
  · have := c6_numbering_first_seen_amended.2.2.1 "note".data (" here".data)
      (by decide) (by decide) (by decide) (by decide)
    simpa using this

/-! ### Script interpolation (build.ts lines 795-876)

`executeLuaScript` does IO: it stats the script file, writes a temporary
driver, spawns `lua` and collects exit code / stdout / stderr.  The
environment is abstracted into `LuaEnv`: `statOk` is whether
`Deno.stat('./lua-scripts/<name>.lua')` succeeds (the `catch` branch of
the source — a missing file, or any other failure of the `try` block — is
modelled by `statOk = false`), and `run` gives the spawned process's
(exit code, stdout, stderr) for a script name and parameter list. -/

structure LuaEnv where
  statOk : String → Bool
  run : String → Option (List String) → Int × String × String

/-- Lines 813-865: absent script → `[Lua Script Not Found: name]`;
non-zero exit → `[Lua Error: name]`; otherwise trimmed stdout. -/
def executeLuaScript (env : LuaEnv) (scriptName : String)
    (params : Option (List String)) : String :=
  if env.statOk ("./lua-scripts/" ++ scriptName ++ ".lua") then
    let r := env.run scriptName params
    if r.1 ≠ 0 then "[Lua Error: " ++ scriptName ++ "]"
    else str (trimL r.2.1.data)
  else "[Lua Script Not Found: " ++ scriptName ++ "]"

structure LuaInterpolation where
  script : String
  params : Option (List String)
  fullMatch : String
deriving DecidableEq, Repr

/-- Match of `\{\{lua:([^:}]+)(?::([^}]+))?\}\}` anchored at the head:
returns (whole-match length, raw script capture, raw params capture). -/
def luaInterpAt (l : List Char) : Option (Nat × List Char × Option (List Char)) :=
  if startsL (chars "\x7b\x7blua:") l then
    let rest := l.drop 6
    let script := rest.takeWhile (fun c => c ≠ ':' && c ≠ '}')
    if script.length = 0 then none
    else
      match rest.drop script.length with
      | ':' :: rest2 =>
        let params := rest2.takeWhile (fun c => c ≠ '}')
        if params.length = 0 then none
        else if startsL (chars "\x7d\x7d") (rest2.drop params.length) then
          some (6 + script.length + 1 + params.length + 2, script, some params)
        else none
      | '}' :: '}' :: _ => some (6 + script.length + 2, script, none)
      | _ => none
  else none

/-- The `regex.exec` collection loop of `parseLuaInterpolations`:
`script` is trimmed, `params` is comma-split and each part trimmed,
`fullMatch` is the matched span. -/
def parseLuaInterpsL : Nat → List Char → List LuaInterpolation
  | 0, _ => []
  | _ + 1, [] => []
  | fuel + 1, c :: cs =>
    match luaInterpAt (c :: cs) with
    | some (len, script, params) =>
      { script := str (trimL script)
        params := params.map fun p => (splitOnCharL ',' p).map fun q => str (trimL q)
        fullMatch := str ((c :: cs).take len) }
        :: parseLuaInterpsL fuel (cs.drop (len - 1))
    | none => parseLuaInterpsL fuel cs

def parseLuaInterpolations (content : String) : List LuaInterpolation :=
  parseLuaInterpsL (content.data.length + 1) content.data

/-- `$`-expansion of a JavaScript string replacement (`$$`, `$&`,
`` $` ``, `$'`; with a string pattern there are no capture groups, so
`$<digit>` stays literal). -/
def expandDollar (before matched after : List Char) : List Char → List Char
  | [] => []
  | c :: d :: rest2 =>
    if c = '$' then
      if d = '$' then '$' :: expandDollar before matched after rest2
      else if d = '&' then matched ++ expandDollar before matched after rest2
      else if d = Char.ofNat 96 then before ++ expandDollar before matched after rest2
      else if d = Char.ofNat 39 then after ++ expandDollar before matched after rest2
      else c :: expandDollar before matched after (d :: rest2)
    else c :: expandDollar before matched after (d :: rest2)
  | [c] => [c]

/-- `String.prototype.replace(pattern, replacement)` with string pattern
and string replacement: first occurrence only, `$`-patterns expanded. -/
def replaceFirstJS (l pat rep : List Char) : List Char :=
  match findSub pat l with
  | some i =>
    l.take i ++ expandDollar (l.take i) pat (l.drop (i + pat.length)) rep
      ++ l.drop (i + pat.length)
  | none => l

theorem str_data (l : List Char) : (str l).data = l := rfl

/-- Lines 867-876: resolve each interpolation in order, substituting the
first occurrence of its matched text with the execution result. -/
def processLuaInterpolations (env : LuaEnv) (content : String) : String :=
  (parseLuaInterpolations content).foldl
    (fun acc i =>
      str (replaceFirstJS acc.data i.fullMatch.data
        (executeLuaScript env i.script i.params).data))
    content

/-- An environment with no scripts at all. -/
def noScriptsEnv : LuaEnv := ⟨fun _ => false, fun _ _ => (0, "", "")⟩

/-! ## Claim C7: the script collaborator never fails the render -/

/-- **C7 counterexample.**  The claim says the placeholder for an absent
script is `[Script Not Found: name]`; the source returns
`[Lua Script Not Found: name]` (and `[Lua Error: name]` for a failing
one), so the claimed string is not the returned string. -/
theorem c7_placeholder_counterexample :
    executeLuaScript noScriptsEnv "doesnotexist" none
      = "[Lua Script Not Found: doesnotexist]" ∧
    executeLuaScript noScriptsEnv "doesnotexist" none
      ≠ "[Script Not Found: doesnotexist]" := by
  exact ⟨by decide, by decide⟩

theorem expandDollar_no_dollar (before matched after : List Char) :
    ∀ rep : List Char, '$' ∉ rep → expandDollar before matched after rep = rep := by
  intro rep
  induction rep with
  | nil => intro _; rfl
  | cons c rest ih =>
    intro h
    have hc : ¬(c = '$') := fun he => h (by rw [he]; exact List.mem_cons_self _ _)
    cases rest with
    | nil => rfl
    | cons d rest2 =>
      rw [show expandDollar before matched after (c :: d :: rest2)
          = c :: expandDollar before matched after (d :: rest2) from by
        simp [expandDollar, hc]]
      rw [ih (fun hm => h (List.mem_cons_of_mem c hm))]

theorem replaceFirstJS_at (p pat s rep : List Char)
    (hfind : findSub pat (p ++ pat ++ s) = some p.length)
    (hrep : '$' ∉ rep) :
    replaceFirstJS (p ++ pat ++ s) pat rep = p ++ rep ++ s := by
  unfold replaceFirstJS
  rw [hfind]
  show (p ++ pat ++ s).take p.length
      ++ expandDollar ((p ++ pat ++ s).take p.length) pat
          ((p ++ pat ++ s).drop (p.length + pat.length)) rep
      ++ (p ++ pat ++ s).drop (p.length + pat.length)
    = p ++ rep ++ s
  rw [expandDollar_no_dollar _ _ _ _ hrep]
  have htake : (p ++ pat ++ s).take p.length = p := by
    rw [List.append_assoc]
    exact List.take_left p _
  have hdrop : (p ++ pat ++ s).drop (p.length + pat.length) = s := by
    rw [show p.length + pat.length = (p ++ pat).length by simp]
    exact List.drop_left _ s
  rw [htake, hdrop]

/-- **C7 (amended).**  For every environment, script name and argument
list: an absent script yields the visible placeholder
`[Lua Script Not Found: name]`, a non-zero exit yields
`[Lua Error: name]`, and a zero exit yields the trimmed stdout; and a
document containing `{{lua:doesnotexist}}` still renders — the directive
is replaced by the placeholder and the surrounding document is kept
verbatim. -/
theorem c7_script_errors_amended :
    (∀ (env : LuaEnv) (name : String) (params : Option (List String)),
      env.statOk ("./lua-scripts/" ++ name ++ ".lua") = false →
      executeLuaScript env name params = "[Lua Script Not Found: " ++ name ++ "]") ∧
    (∀ (env : LuaEnv) (name : String) (params : Option (List String)),
      env.statOk ("./lua-scripts/" ++ name ++ ".lua") = true →
      (env.run name params).1 ≠ 0 →
      executeLuaScript env name params = "[Lua Error: " ++ name ++ "]") ∧
    (∀ (env : LuaEnv) (name : String) (params : Option (List String)),
      env.statOk ("./lua-scripts/" ++ name ++ ".lua") = true →
      (env.run name params).1 = 0 →
      executeLuaScript env name params = str (trimL (env.run name params).2.1.data)) ∧
    (∀ (env : LuaEnv) (p s : List Char),
      env.statOk "./lua-scripts/doesnotexist.lua" = false →
      parseLuaInterpsL ((p ++ chars "{{lua:doesnotexist}}" ++ s).length + 1)
          (p ++ chars "{{lua:doesnotexist}}" ++ s)
        = [⟨"doesnotexist", none, "{{lua:doesnotexist}}"⟩] →
      findSub (chars "{{lua:doesnotexist}}") (p ++ chars "{{lua:doesnotexist}}" ++ s)
        = some p.length →
      processLuaInterpolations env (str (p ++ chars "{{lua:doesnotexist}}" ++ s))
        = str (p ++ chars "[Lua Script Not Found: doesnotexist]" ++ s)) := by
  refine ⟨?_, ?_, ?_, ?_⟩
  · intro env name params h
    simp [executeLuaScript, h]
  · intro env name params h hc
    simp [executeLuaScript, h, hc]
  · intro env name params h hc
    simp [executeLuaScript, h, hc]
  · intro env p s hstat hparse hfind
    have hexec : executeLuaScript env "doesnotexist" none
        = "[Lua Script Not Found: doesnotexist]" := by
      simp [executeLuaScript, hstat]
    simp only [processLuaInterpolations, parseLuaInterpolations, str_data, hparse,
      List.foldl_cons, List.foldl_nil]
    rw [hexec]
    exact congrArg str (replaceFirstJS_at p (chars "{{lua:doesnotexist}}") s
      (chars "[Lua Script Not Found: doesnotexist]") hfind (by decide))

/-- Witness for `c7_script_errors_amended` at a concrete environment and
document. -/
theorem c7_script_errors_amended_witness :
    executeLuaScript noScriptsEnv "x" none = "[Lua Script Not Found: x]" ∧
    processLuaInterpolations noScriptsEnv "before {{lua:doesnotexist}} after"
      = "before [Lua Script Not Found: doesnotexist] after" := by
  constructor
  · exact c7_script_errors_amended.1 noScriptsEnv "x" none (by decide)
  · have := c7_script_errors_amended.2.2.2 noScriptsEnv "before ".data " after".data
      (by decide) (by decide) (by decide)
    simpa using this

/-! ### Frontmatter metadata (build.ts lines 1081-1110) -/

/-- A frontmatter value: a scalar string or a bracket-syntax array. -/
inductive MetaVal where
  | s (v : String)
  | arr (vs : List String)
deriving DecidableEq, Repr

/-- Insertion-ordered JavaScript-object assignment for the metadata map. -/
def setMeta (m : List (String × MetaVal)) (k : String) (v : MetaVal) :
    List (String × MetaVal) :=
  match m with
  | [] => [(k, v)]
  | (k', v') :: rest => if k' = k then (k, v) :: rest else (k', v') :: setMeta rest k v

/-- `content.indexOf(pat, start)`. -/
def indexOfFrom (pat l : List Char) (start : Nat) : Option Nat :=
  (findSub pat (l.drop start)).map (· + start)

/-- One `key: value` line of the frontmatter: split at the first `:`,
trim both parts; a `[...]`-delimited value becomes an array of trimmed,
comma-split items. -/
def parseFrontmatterLine (m : List (String × MetaVal)) (line : List Char) :
    List (String × MetaVal) :=
  match findSub (chars ":") line with
  | none => m
  | some i =>
    let key := trimL (line.take i)
    let value := trimL (line.drop (i + 1))
    if startsL (chars "[") value ∧ value.getLast? = some ']' then
      let arrayContent := (value.drop 1).dropLast
      let items := (splitOnCharL ',' arrayContent).map fun x => str (trimL x)
      setMeta m (str key) (MetaVal.arr items)
    else setMeta m (str key) (MetaVal.s (str value))

/-- `extractMetadata`: a leading `---`, the next `---` from index 3, the
text between them trimmed and parsed line by line; anything else yields
the empty mapping. -/
def extractMetadata (content : String) : List (String × MetaVal) :=
  if startsL (chars "---") content.data then
    match indexOfFrom (chars "---") content.data 3 with
    | some endIdx =>
      let fm := trimL ((content.data.take endIdx).drop 3)
      (splitOnCharL '\n' fm).foldl parseFrontmatterLine []
    | none => []
  else []

/-! ## Claim C8: frontmatter array values and the empty-mapping fallback -/

/-- **C8 (confirmed).**  The line `tags: [a, b, c]` parses to the ordered
three-element array `["a","b","c"]` with each element trimmed; and any
content without a leading `---` followed by a second `---` yields the
empty mapping. -/
theorem c8_frontmatter :
    (extractMetadata "---\ntitle: Hi\ntags: [a, b, c]\n---\nBody").lookup "tags"
      = some (MetaVal.arr ["a", "b", "c"]) ∧
    (∀ content : String,
      ¬(startsL (chars "---") content.data = true ∧
        (indexOfFrom (chars "---") content.data 3).isSome = true) →
      extractMetadata content = []) := by
  constructor
  · decide
  · intro content h
    unfold extractMetadata
    by_cases h1 : startsL (chars "---") content.data = true
    · rw [if_pos h1]
      cases h2 : indexOfFrom (chars "---") content.data 3 with
      | none => rfl
      | some v => exact absurd ⟨h1, by simp [h2]⟩ h
    · rw [if_neg h1]

/-- Witness for `c8_frontmatter`: content with no frontmatter block at all
yields the empty mapping. -/
theorem c8_frontmatter_witness :
    extractMetadata "just a body, no frontmatter" = [] :=
  c8_frontmatter.2 "just a body, no frontmatter" (by decide)

/-! ### Shared inline matchers -/

/-- Lazy pair match `o(.*?)c` anchored at the head (`.` excludes both
`\n` and `\r`): the content runs to the *first* occurrence of `c`, and the
match fails if a line terminator intervenes. -/
def lazyPairAt (o c l : List Char) : Option (Nat × List Char) :=
  if startsL o l then
    let rest := l.drop o.length
    match findSub c rest with
    | some j =>
      if (rest.take j).contains '\n' || (rest.take j).contains '\r' then none
      else some (o.length + j + c.length, rest.take j)
    | none => none
  else none

/-- Match of `\[([^\]]+)\]\(([^)]+)\)` anchored at the head: returns
(whole-match length, link text, url). -/
def linkAt (l : List Char) : Option (Nat × List Char × List Char) :=
  if startsL (chars "[") l then
    let text := (l.drop 1).takeWhile (fun c => c ≠ ']')
    if text.length = 0 then none
    else
      match (l.drop 1).drop text.length with
      | ']' :: '(' :: rest =>
        let url := rest.takeWhile (fun c => c ≠ ')')
        if url.length = 0 then none
        else
          match rest.drop url.length with
          | ')' :: _ => some (1 + text.length + 2 + url.length + 1, text, url)
          | _ => none
      | _ => none
  else none

/-! ### TOC marker processing (build.ts lines 879-966)

`processTOCMarker` reads the `./routes/blogs` directory; the directory is
abstracted as a list of entries (name, isFile, file content). -/

structure TocEntry where
  name : String
  isFile : Bool
  content : String
deriving DecidableEq, Repr

structure BlogPost where
  title : String
  date : String
  author : String
  tags : List String
  excerpt : String
  filename : String
  url : String
deriving DecidableEq, Repr

/-- `String.prototype.endsWith`. -/
def endsL (p l : List Char) : Bool :=
  decide (p.length ≤ l.length) && startsL p (l.drop (l.length - p.length))

/-- The part of a string before the first occurrence of `pat`
(`s.split(pat)[0]`). -/
def upToSub (pat l : List Char) : List Char :=
  match findSub pat l with
  | some i => l.take i
  | none => l

/-- `replace(/^#+\s*/, '')` — strip a leading header marker (anchored,
non-global). -/
def stripLeadingHashes (l : List Char) : List Char :=
  match l with
  | '#' :: _ =>
    let hs := l.takeWhile (fun c => c = '#')
    let rest := l.drop hs.length
    rest.drop (rest.takeWhile jsWs).length
  | _ => l

def boldStripStep (_ : Option Char) (l : List Char) : Option (Nat × List Char) :=
  lazyPairAt (chars "**") (chars "**") l

def italicStripStep (_ : Option Char) (l : List Char) : Option (Nat × List Char) :=
  lazyPairAt (chars "*") (chars "*") l

def linkStripStep (_ : Option Char) (l : List Char) : Option (Nat × List Char) :=
  (linkAt l).map fun r => (r.1, r.2.1)

/-- Lines 909-924: first-paragraph excerpt extraction, markdown stripped,
capped at 150 characters with a conditional ellipsis. -/
def excerptOf (content : String) : String :=
  if startsL (chars "---") content.data then
    match indexOfFrom (chars "---") content.data 3 with
    | some endIdx =>
      let markdownContent := trimL (content.data.drop (endIdx + 3))
      let firstParagraph := upToSub (chars "\n\n") markdownContent
      let s0 := stripLeadingHashes firstParagraph
      let s1 := gRepl0 boldStripStep (s0.length + 1) none s0
      let s2 := gRepl0 italicStripStep (s1.length + 1) none s1
      let s3 := gRepl0 linkStripStep (s2.length + 1) none s2
      str (s3.take 150 ++ (if 150 < firstParagraph.length then chars "..." else []))
    | none => ""
  else ""

/-- JavaScript truthiness of a metadata value (`''` is falsy; any array,
even empty, is truthy). -/
def metaTruthy : Option MetaVal → Bool
  | none => false
  | some (MetaVal.s v) => v ≠ ""
  | some (MetaVal.arr _) => true

/-- Template-literal stringification of a metadata value (an array joins
with commas). -/
def metaToString : MetaVal → String
  | MetaVal.s v => v
  | MetaVal.arr vs => String.intercalate "," vs

/-- `new Date(dateString).getTime()`, for the ISO `YYYY-MM-DD` dates the
content uses: `y*10000 + m*100 + d` is strictly monotone in the epoch
value on such dates, so all comparator results agree with the source.
An unparsable date gives `none` (JavaScript `NaN`). -/
def dateKey (s : String) : Option Int :=
  match splitOnCharL '-' s.data with
  | [y, m, d] =>
    if (!y.isEmpty && y.all jsDigit) && (!m.isEmpty && m.all jsDigit)
        && (!d.isEmpty && d.all jsDigit) then
      some ((digitsToNat y : Int) * 10000 + digitsToNat m * 100 + digitsToNat d)
    else none
  | _ => none

/-- Stable sort by `(a, b) => dateMs(b) - dateMs(a)` (date descending):
`y` placed earlier keeps its position before a later `x` iff the
comparator on `(y, x)` is `≤ 0`; a `NaN` comparison (invalid date) keeps
the original order, as V8 treats a `NaN` comparator result like `0`. -/
def postCmpKeep (y x : BlogPost) : Bool :=
  match dateKey y.date, dateKey x.date with
  | some ky, some kx => kx ≤ ky
  | _, _ => true

def insertPost (x : BlogPost) : List BlogPost → List BlogPost
  | [] => [x]
  | y :: ys => if postCmpKeep y x then y :: insertPost x ys else x :: y :: ys

def sortPosts (l : List BlogPost) : List BlogPost :=
  l.foldl (fun acc x => insertPost x acc) []

/-- One blog card (template literal of lines 943-957, whitespace exact).
The `Bool` result of `buildPost` flags the case in which the source would
throw (`meta.tags` a nonempty scalar, so `post.tags.map` is not a
function), which the outer `catch` turns into the error replacement. -/
def cardHtml (post : BlogPost) : String :=
  "<div class=\"blog-card\">\n    <a href=\"" ++ post.url
    ++ "\" class=\"blog-card-link-wrapper\">\n        <div class=\"blog-card-header\">\n            <h3 class=\"blog-card-title\">"
    ++ post.title
    ++ "</h3>\n            <div class=\"blog-card-meta\">\n                <span class=\"blog-card-date\">"
    ++ post.date ++ "</span>\n                "
    ++ (if post.author ≠ "" then
          "<span class=\"blog-card-author\">by " ++ post.author ++ "</span>"
        else "")
    ++ "\n            </div>\n        </div>\n        "
    ++ (if post.excerpt ≠ "" then
          "<p class=\"blog-card-excerpt\">" ++ post.excerpt ++ "</p>"
        else "")
    ++ "\n        "
    ++ (if post.tags.length > 0 then
          "<div class=\"blog-card-tags\">\n            "
            ++ String.join (post.tags.map fun tag =>
                "<span class=\"blog-card-tag\">" ++ tag ++ "</span>")
            ++ "\n        </div>"
        else "")
    ++ "\n    </a>\n</div>"

/-- Lines 904-936: the post record built from one sibling file. -/
def buildPost (name content : String) : BlogPost × Bool :=
  let meta := extractMetadata content
  let excerpt := excerptOf content
  let filename := str (name.data.take (name.data.length - 3))
  let fallbackTitle :=
    str (filename.data.map fun c => if c = '-' then ' ' else if c = '_' then ' ' else c)
  let title :=
    if metaTruthy (meta.lookup "title") then
      metaToString ((meta.lookup "title").getD (MetaVal.s ""))
    else fallbackTitle
  let date :=
    if metaTruthy (meta.lookup "date") then
      metaToString ((meta.lookup "date").getD (MetaVal.s ""))
    else ""
  let author :=
    if metaTruthy (meta.lookup "author") then
      metaToString ((meta.lookup "author").getD (MetaVal.s ""))
    else ""
  let tagsBad : List String × Bool :=
    match meta.lookup "tags" with
    | some (MetaVal.arr vs) => (vs, false)
    | some (MetaVal.s v) => if v = "" then ([], false) else ([], true)
    | none => ([], false)
  (⟨title, date, author, tagsBad.1, excerpt, filename, "/blogs/" ++ filename⟩, tagsBad.2)

def tocMarker : String := "{{routes:toc}}"

/-- `processTOCMarker`: guards, sibling scan (`.md` files other than
`index.md`), date-descending sort, card generation, first-occurrence
marker replacement; a thrown error inside the `try` yields the error
paragraph instead. -/
def processTOCMarker (entries : List TocEntry) (content filePath : String) : String :=
  if !containsSub content.data tocMarker.data then content
  else if !containsSub filePath.data (chars "/blogs/index.md") then content
  else
    let files := entries.filter fun e =>
      e.isFile && endsL (chars ".md") e.name.data && e.name ≠ "index.md"
    let postsBad := files.map fun e => buildPost e.name e.content
    if postsBad.any (fun pb => pb.2) then
      str (replaceFirstJS content.data tocMarker.data
        (chars "<p>Error loading blog posts.</p>"))
    else
      let posts := sortPosts (postsBad.map Prod.fst)
      let cards := String.join (posts.map cardHtml)
      str (replaceFirstJS content.data tocMarker.data cards.data)

/-! ## Claim C9: TOC expansion order -/

def tocDemoEntries : List TocEntry :=
  [⟨"post-a.md", true, "---\ntitle: T1\ndate: 2024-01-15\n---"⟩,
   ⟨"post-b.md", true, "---\ntitle: T2\ndate: 2024-01-20\n---"⟩,
   ⟨"post-c.md", true, "---\ntitle: T3\ndate: 2024-01-25\n---"⟩,
   ⟨"index.md", true, "# Blogs\n\n{{routes:toc}}"⟩,
   ⟨"notes.txt", true, "not a post"⟩]

def tocDemoPost (t d f : String) : BlogPost :=
  ⟨t, d, "", [], "", f, "/blogs/" ++ f⟩

/-- **C9 (confirmed).**  In a directory-index document, `{{routes:toc}}`
expands to one summary card per sibling `.md` content file (the index
itself and non-markdown entries excluded), ordered by date descending:
with siblings dated 2024-01-15/20/25 titled T1/T2/T3, the marker is
replaced by exactly the three cards in the order T3, T2, T1, and the
marker no longer occurs in the output. -/
theorem c9_toc_order :
    processTOCMarker tocDemoEntries "Welcome.\n\n{{routes:toc}}\n" "./routes/blogs/index.md"
      = "Welcome.\n\n"
        ++ cardHtml (tocDemoPost "T3" "2024-01-25" "post-c")
        ++ cardHtml (tocDemoPost "T2" "2024-01-20" "post-b")
        ++ cardHtml (tocDemoPost "T1" "2024-01-15" "post-a")
        ++ "\n" ∧
    strContainsSub
      (processTOCMarker tocDemoEntries "Welcome.\n\n{{routes:toc}}\n" "./routes/blogs/index.md")
      "{{routes:toc}}" = false ∧
    processTOCMarker tocDemoEntries "no marker here" "./routes/blogs/index.md"
      = "no marker here" := by
  have h : processTOCMarker tocDemoEntries "Welcome.\n\n{{routes:toc}}\n" "./routes/blogs/index.md"
      = "Welcome.\n\n"
        ++ cardHtml (tocDemoPost "T3" "2024-01-25" "post-c")
        ++ cardHtml (tocDemoPost "T2" "2024-01-20" "post-b")
        ++ cardHtml (tocDemoPost "T1" "2024-01-15" "post-a")
        ++ "\n" := by decide
  refine ⟨h, ?_, by decide⟩
  rw [h]
  decide

/-! ### The full `parseMarkdown` pipeline (build.ts lines 35-405)

The two impurities of the source are abstracted into a context: the
synchronous WebP existence probe (`Deno.statSync`) and the
`Date.now()`/`Math.random()` unique id of a restored code block (supplied
per replacement index). -/

structure MdCtx where
  webpExists : String → Bool
  uniqueId : Nat → String

/-- Match of `!\[([^\]]*)\]\(([^)]+)\)` anchored at the head:
(whole-match length, alt text, src). -/
def imageAt (l : List Char) : Option (Nat × List Char × List Char) :=
  if startsL (chars "![") l then
    let alt := (l.drop 2).takeWhile (fun c => c ≠ ']')
    match (l.drop 2).drop alt.length with
    | ']' :: '(' :: rest =>
      let src := rest.takeWhile (fun c => c ≠ ')')
      if src.length = 0 then none
      else
        match rest.drop src.length with
        | ')' :: _ => some (2 + alt.length + 2 + src.length + 1, alt, src)
        | _ => none
    | _ => none
  else none

/-- `src.replace(/^\.?\/?/, '')`. -/
def stripDotSlash (src : List Char) : List Char :=
  match src with
  | '.' :: '/' :: r => r
  | '.' :: r => r
  | '/' :: r => r
  | r => r

/-- `webpSrc.replace(/[#?].*$/, '')`: truncate at the leftmost `#` or `?`
that has no later line terminator (`.` excludes `\n` and `\r`, `$` is end
of string). -/
def stripHashQuery : List Char → List Char
  | [] => []
  | c :: cs =>
    if (c = '#' || c = '?') && !cs.contains '\n' && !cs.contains '\r' then []
    else c :: stripHashQuery cs

/-- `webpSrc.replace(/\.[^.\/]+$/, '.webp')`: only the last dot can match,
and only when its extension is nonempty and free of `.` and `/`. -/
def replaceLastExt (l : List Char) : List Char :=
  let r := l.reverse
  let ext := r.takeWhile fun c => !(c = '.' || c = '/')
  match r.drop ext.length with
  | '.' :: stem =>
    if ext.length = 0 then l
    else stem.reverse ++ chars ".webp"
  | _ => l

/-- The image replacement of lines 48-83: asset-path rewriting, WebP probe
and `<picture>` fallback. -/
def imageHtml (ctx : MdCtx) (alt src : List Char) : List Char :=
  let origSrc :=
    if !(startsL (chars "http") src || startsL (chars "https") src
        || startsL (chars "/assets/") src) then
      chars "/assets/" ++ stripDotSlash src
    else src
  let webpSrc := replaceLastExt (stripHashQuery origSrc)
  let webpPath := replaceFirstJS webpSrc (chars "/assets/") (chars "./dist/assets/")
  if ctx.webpExists (str webpPath) then
    chars "<picture>\n                <source srcset=\"" ++ webpSrc
      ++ chars "\" type=\"image/webp\">\n                <img src=\"" ++ origSrc
      ++ chars "\" alt=\"" ++ alt ++ chars "\">\n            </picture>"
  else
    chars "<img src=\"" ++ origSrc ++ chars "\" alt=\"" ++ alt ++ chars "\">"

def imagesPassL (ctx : MdCtx) (l : List Char) : List Char :=
  gRepl0 (fun _ t => (imageAt t).map fun r => (r.1, imageHtml ctx r.2.1 r.2.2))
    (l.length + 1) none l

/-- The link replacement of lines 86-89. -/
def linksPassL (l : List Char) : List Char :=
  gRepl0
    (fun _ t => (linkAt t).map fun r =>
      (r.1, chars "<a href=\"" ++ r.2.2
        ++ chars "\" target=\"_blank\" rel=\"noopener noreferrer\">" ++ r.2.1
        ++ chars "</a>"))
    (l.length + 1) none l

/-! Definition lists (lines 153-220). -/

/-- `/^:\s+(.+)$/` on a trimmed line: `\s+` may contain terminators, but
`.` matches neither `\n` nor `\r` and `$` without the `m` flag needs the
end of the string, so the captured remainder must be terminator-free. -/
def defLineMatch (t : List Char) : Option (List Char) :=
  match t with
  | ':' :: rest =>
    let w := rest.takeWhile jsWs
    if w.length = 0 then none
    else
      let d := rest.drop w.length
      if d.isEmpty then none
      else if d.contains '\n' || d.contains '\r' then none
      else some d
  | _ => none

/-- `/^\[\^[^\]]+\]:/.test(trimmedLine)`. -/
def fnDefLinePrefix (t : List Char) : Bool :=
  startsL (chars "[^") t &&
    (let name := (t.drop 2).takeWhile fun c => c ≠ ']'
     !name.isEmpty && startsL (chars "]:") ((t.drop 2).drop name.length))

/-- The term-line condition of lines 177-182. -/
def isTermCandidate (t : List Char) : Bool :=
  !t.isEmpty && !startsL (chars "<") t && !startsL (chars ">") t
    && !startsL (chars "#") t && !startsL (chars "|") t
    && !startsL (chars "-") t && !startsL (chars "*") t
    && !(let ds := t.takeWhile jsDigit
         !ds.isEmpty && (t.drop ds.length).head? = some '.')
    && !startsL (chars "```") t && !startsL (chars "---") t
    && !startsL (chars "_[") t && !fnDefLinePrefix t

/-- The definition-list line loop. -/
def defListGo : List (List Char) → Bool → List (List Char)
  | [], inDef => if inDef then [chars "</dl>"] else []
  | line :: rest, inDef =>
    let t := trimL line
    match defLineMatch t with
    | some d =>
      (if inDef then [] else [chars "<dl>"])
        ++ (chars "<dd>" ++ d ++ chars "</dd>") :: defListGo rest true
    | none =>
      if isTermCandidate t then
        let closes := if inDef then [chars "</dl>"] else []
        let nextT := match rest with | [] => [] | n :: _ => trimL n
        match defLineMatch nextT with
        | some _ => closes ++ chars "<dl>" :: (chars "<dt>" ++ t ++ chars "</dt>") :: defListGo rest true
        | none => closes ++ line :: defListGo rest false
      else
        (if inDef then [chars "</dl>"] else []) ++ line :: defListGo rest false

def defListsPassL (l : List Char) : List Char :=
  joinWith (chars "\n") (defListGo (splitLinesRN l) false)

/-! Tables (lines 222-245): the global `((?:^\|.*\|.*\n)+)/gm` block
finder feeding `tableBlockTransform`. -/

/-- Split into lines on bare `\n`, remembering whether each line was
terminated by a newline (the block regex requires the trailing `\n`). -/
def splitKeepNL : List Char → List (List Char × Bool)
  | [] => [([], false)]
  | '\n' :: cs => ([], true) :: splitKeepNL cs
  | c :: cs =>
    match splitKeepNL cs with
    | [] => [([c], false)]
    | (h, b) :: t => ((c :: h), b) :: t

/-- `^\|.*\|.*` on one line: starts with a pipe and has another one, with
no `\r` anywhere (`.` cannot match a carriage return, and every character
of a matched line other than the two pipes is consumed by a `.*`). -/
def isTableLine (line : List Char) : Bool :=
  startsL (chars "|") line && (line.drop 1).contains '|' && !line.contains '\r'

def linesWithNL : List (List Char) → List Char
  | [] => []
  | l :: ls => l ++ '\n' :: linesWithNL ls

def flushTableAcc (acc : List (List Char)) : List Char :=
  if acc.isEmpty then [] else tableBlockTransform (linesWithNL acc)

def tablesGo (acc : List (List Char)) : List (List Char × Bool) → List Char
  | [] => flushTableAcc acc
  | (line, b) :: rest =>
    if b && isTableLine line then tablesGo (acc ++ [line]) rest
    else flushTableAcc acc ++ line ++ (if b then chars "\n" else []) ++ tablesGo [] rest

def tablesPassL (l : List Char) : List Char :=
  tablesGo [] (splitKeepNL l)

/-! Task lists (lines 247-251): two case-insensitive replaces. -/

/-- ASCII case-insensitive prefix match (the `i` flag). -/
def startsCI : List Char → List Char → Bool
  | [], _ => true
  | _ :: _, [] => false
  | p :: ps, c :: cs => p.toLower = c.toLower && startsCI ps cs

/-- First index at which `</li>` (case-insensitively) starts, failing on a
line terminator first (`(.*?)` can cross neither `\n` nor `\r`). -/
def findCloseLi : List Char → Option Nat
  | [] => none
  | c :: cs =>
    if startsCI (chars "</li>") (c :: cs) then some 0
    else if c = '\n' || c = '\r' then none
    else (findCloseLi cs).map (· + 1)

/-- Match of `<li>\s*\[x\]\s*(.*?)<\/li>` (or the `[ ]` variant) with the
`i` flag, anchored at the head. -/
def taskItemAt (box : List Char) (l : List Char) : Option (Nat × List Char) :=
  if startsCI (chars "<li>") l then
    let r1 := l.drop 4
    let w1 := r1.takeWhile jsWs
    let r2 := r1.drop w1.length
    if startsCI box r2 then
      let r3 := r2.drop box.length
      let w2 := r3.takeWhile jsWs
      let r4 := r3.drop w2.length
      match findCloseLi r4 with
      | some j => some (4 + w1.length + box.length + w2.length + j + 5, r4.take j)
      | none => none
    else none
  else none

def taskListsPassL (l : List Char) : List Char :=
  let s1 := gRepl0
    (fun _ t => (taskItemAt (chars "[x]") t).map fun r =>
      (r.1, chars "<li class=\"task-list-item\"><input type=\"checkbox\" checked disabled> "
        ++ r.2 ++ chars "</li>"))
    (l.length + 1) none l
  gRepl0
    (fun _ t => (taskItemAt (chars "[ ]") t).map fun r =>
      (r.1, chars "<li class=\"task-list-item\"><input type=\"checkbox\" disabled> "
        ++ r.2 ++ chars "</li>"))
    (s1.length + 1) none s1

/-! Abbreviations (lines 256-268). -/

/-- First index of `pat` reachable without crossing a line terminator (for
lazy `(.+?)` captures of `.`-only content; `.` excludes `\n` and `\r`). -/
def findSubNoNL (pat : List Char) : List Char → Option Nat
  | [] => if startsL pat [] then some 0 else none
  | c :: cs =>
    if startsL pat (c :: cs) then some 0
    else if c = '\n' || c = '\r' then none
    else (findSubNoNL pat cs).map (· + 1)

/-- `\s*(.+)$` anchored (shared backtracking analysis with
`footnoteDefAt`): returns (consumed length, captured definition). -/
def wsDotPlusAt (rest2 : List Char) : Option (Nat × List Char) :=
  let w := rest2.takeWhile jsWs
  match rest2.drop w.length with
  | c :: cs =>
    let tail := cs.takeWhile fun d => d ≠ '\n' && d ≠ '\r'
    some (w.length + 1 + tail.length, c :: tail)
  | [] =>
    let tl := w.reverse.takeWhile fun c => c = '\n' || c = '\r'
    if tl.length = w.length then none
    else
      some (w.length - tl.length,
        (w.drop (w.length - tl.length - 1)).takeWhile fun c => c ≠ '\n' && c ≠ '\r')

/-- Match of `\\_\[(.+?)\]:\s*(.+)$` anchored at the head (the caller
checks the `^` anchor): (whole-match length, abbreviation, definition). -/
def abbrevDefAt (l : List Char) : Option (Nat × List Char × List Char) :=
  if startsL (chars "\\_[") l then
    let rest := l.drop 3
    match findSubNoNL (chars "]:") rest with
    | some j =>
      if j = 0 then none
      else
        (wsDotPlusAt (rest.drop (j + 2))).map fun r =>
          (3 + j + 2 + r.1, rest.take j, r.2)
    | none => none
  else none

def abbrevCollectStep (st : List (List Char × List Char)) (prev : Option Char)
    (l : List Char) : Option (Nat × List Char × List (List Char × List Char)) :=
  if atLineStart prev then
    match abbrevDefAt l with
    | some (len, name, defTxt) => some (len, [], setAssoc st name defTxt)
    | none => none
  else none

def isWordO : Option Char → Bool
  | none => false
  | some c => jsWord c

/-- `\b` between two adjacent positions. -/
def wordBoundary (a b : Option Char) : Bool := isWordO a != isWordO b

/-- One whole-word case-insensitive occurrence of `term`, replaced by the
`<abbr>` element (the dynamically built `\bterm\b` `gi` regex of line
265). -/
def abbrevReplaceStep (term defTxt : List Char) (prev : Option Char) (l : List Char) :
    Option (Nat × List Char) :=
  if !term.isEmpty && startsCI term l
      && wordBoundary prev l.head?
      && wordBoundary (l.get? (term.length - 1)) (l.get? term.length) then
    some (term.length,
      chars "<abbr title=\"" ++ defTxt ++ chars "\">" ++ term ++ chars "</abbr>")
  else none

def abbreviationsPassL (l : List Char) : List Char :=
  let r := gRepl _ abbrevCollectStep (l.length + 1) [] none l
  r.2.foldl
    (fun txt kv => gRepl0 (abbrevReplaceStep kv.1 kv.2) (txt.length + 1) none txt)
    r.1

/-! Headers (lines 306-318): `^\s*#…# (.*$)` with `gim`, slugified id and
self-link anchor; the `###` pass runs first, then `##`, then `#`. -/

def isLowerAlnum (c : Char) : Bool :=
  ('a' ≤ c && c ≤ 'z') || ('0' ≤ c && c ≤ '9')

/-- `replace(/[^a-z0-9]+/g, '-')` — collapse runs to single hyphens. -/
def slugCollapse : List Char → Bool → List Char
  | [], _ => []
  | c :: cs, inRun =>
    if isLowerAlnum c then c :: slugCollapse cs false
    else if inRun then slugCollapse cs true
    else '-' :: slugCollapse cs true

/-- `title.toLowerCase().replace(/[^a-z0-9]+/g,'-').replace(/^-+|-+$/g,'')`. -/
def slugify (title : List Char) : List Char :=
  let collapsed := slugCollapse (title.map Char.toLower) false
  ((collapsed.dropWhile (fun c => c = '-')).reverse.dropWhile (fun c => c = '-')).reverse

/-- Match of `\s*#{n} (.*$)` anchored at a line start (`\s*` is greedy and
may absorb preceding blank lines; `.` stops at the line end, i.e. before
`\n` or `\r`, where the multiline `$` matches without consuming it). -/
def headerAt (n : Nat) (l : List Char) : Option (Nat × List Char) :=
  let w := l.takeWhile jsWs
  let rest := l.drop w.length
  if startsL (List.replicate n '#' ++ [' ']) rest then
    let title := (rest.drop (n + 1)).takeWhile fun c => c ≠ '\n' && c ≠ '\r'
    some (w.length + n + 1 + title.length, title)
  else none

def headerHtml (n : Nat) (title : List Char) : List Char :=
  let tag := chars "h" ++ natChars n
  let id := slugify title
  '<' :: tag ++ chars " id=\"" ++ id ++ chars "\"><a href=\"#" ++ id
    ++ chars "\" class=\"header-anchor\">" ++ title ++ chars "</a></" ++ tag ++ [ '>' ]

def headerPassL (n : Nat) (l : List Char) : List Char :=
  gRepl0
    (fun prev t =>
      if atLineStart prev then (headerAt n t).map fun r => (r.1, headerHtml n r.2)
      else none)
    (l.length + 1) none l

def headersPassL (l : List Char) : List Char :=
  headerPassL 1 (headerPassL 2 (headerPassL 3 l))

/-! Inline emphasis family (lines 319-327). -/

def backtickC : Char := Char.ofNat 96

/-- Match of `` `([^`]+)` `` anchored at the head (the class includes
newlines). -/
def inlineCodeAt (l : List Char) : Option (Nat × List Char) :=
  match l with
  | c :: cs =>
    if c = backtickC then
      let content := cs.takeWhile fun d => d ≠ backtickC
      if content.isEmpty then none
      else if (cs.drop content.length).head? = some backtickC then
        some (1 + content.length + 1, content)
      else none
    else none
  | [] => none

def emphasisPassL (o c : List Char) (openTag closeTag : List Char) (l : List Char) : List Char :=
  gRepl0
    (fun _ t => (lazyPairAt o c t).map fun r => (r.1, openTag ++ r.2 ++ closeTag))
    (l.length + 1) none l

def inlinePassL (l : List Char) : List Char :=
  let b := emphasisPassL (chars "**") (chars "**") (chars "<strong>") (chars "</strong>") l
  let i1 := emphasisPassL (chars "*") (chars "*") (chars "<em>") (chars "</em>") b
  let i2 := emphasisPassL (chars "_") (chars "_") (chars "<em>") (chars "</em>") i1
  let d := emphasisPassL (chars "~~") (chars "~~") (chars "<del>") (chars "</del>") i2
  gRepl0
    (fun _ t => (inlineCodeAt t).map fun r => (r.1, chars "<code>" ++ r.2 ++ chars "</code>"))
    (d.length + 1) none d

/-! Blockquotes (lines 329-336). -/

/-- One `\s*> .*$\n?` unit anchored here (`.` stops before `\n` or `\r`;
only a `\n` is then consumed by the optional literal). -/
def bqOneLine (l : List Char) : Option Nat :=
  let w := l.takeWhile jsWs
  let rest := l.drop w.length
  if startsL (chars "> ") rest then
    let content := (rest.drop 2).takeWhile fun c => c ≠ '\n' && c ≠ '\r'
    let k := w.length + 2 + content.length
    match (l.drop k).head? with
    | some '\n' => some (k + 1)
    | _ => some k
  else none

/-- The greedy `(…)+` repetition: a further unit needs a line start, i.e.
the previous one must have ended by consuming a newline. -/
def bqRun : Nat → List Char → Nat
  | 0, _ => 0
  | fuel + 1, l =>
    match bqOneLine l with
    | none => 0
    | some k =>
      if k = 0 then 0
      else if (l.take k).getLast? = some '\n' then k + bqRun fuel (l.drop k)
      else k

/-- `replace(/^\s*> ?/, '')` on one quoted line. -/
def bqStripLine (line : List Char) : List Char :=
  let w := line.takeWhile jsWs
  match line.drop w.length with
  | '>' :: ' ' :: r => r
  | '>' :: r => r
  | _ => line

/-- The callback of lines 330-335: trim, split, strip markers, drop blank
lines, join with single spaces. -/
def bqHtml (m : List Char) : List Char :=
  let lines := splitLinesRN (trimL m)
  chars "<blockquote>"
    ++ joinWith (chars " ")
        ((lines.map bqStripLine).filter fun x => !(trimL x).isEmpty)
    ++ chars "</blockquote>"

def blockquotesPassL (l : List Char) : List Char :=
  gRepl0
    (fun prev t =>
      if atLineStart prev then
        let k := bqRun (t.length + 1) t
        if k = 0 then none else some (k, bqHtml (t.take k))
      else none)
    (l.length + 1) none l

/-! Horizontal rules (line 338): `^[ ]*---[ ]*$` with `gm`. -/

def hrAt (l : List Char) : Option Nat :=
  let w := l.takeWhile fun c => c = ' '
  let rest := l.drop w.length
  if startsL (chars "---") rest then
    let rest2 := rest.drop 3
    let w2 := rest2.takeWhile fun c => c = ' '
    match (rest2.drop w2.length).head? with
    | some '\n' => some (w.length + 3 + w2.length)
    | some '\r' => some (w.length + 3 + w2.length)
    | none => some (w.length + 3 + w2.length)
    | some _ => none
  else none

def hrPassL (l : List Char) : List Char :=
  gRepl0
    (fun prev t =>
      if atLineStart prev then (hrAt t).map fun k => (k, chars "<hr>")
      else none)
    (l.length + 1) none l

/-- Line 340: `replace(/\n\n/g, '</p><p>')`. -/
def nlnlPassL (l : List Char) : List Char :=
  gRepl0
    (fun _ t => if startsL (chars "\n\n") t then some (2, chars "</p><p>") else none)
    (l.length + 1) none l

/-! The `<br>` insertion (line 342): `(?<!<\/li>)\n(?!…)` with a fixed
alternation of block tags. -/

def brPlainPats : List String :=
  ["<ul>", "<ol>", "<li>", "</ul>", "</ol>", "<dl>", "<dt>", "<dd>", "</dl>",
   "<table>", "<thead>", "<tbody>", "<tr>", "<th>", "<td>", "</table>", "</thead>",
   "</tbody>", "</tr>", "</th>", "</td>", "</div>", "<p>", "</p>", "<blockquote>",
   "</blockquote>", "<hr>", "<pre>", "</pre>", "<code>", "</code>", "<strong>",
   "</strong>", "<em>", "</em>", "<del>", "</del>", "</a>", "</img>", "<abbr>",
   "</abbr>", "<sup>", "</sup>", "<span>", "</span>"]

def isDigit16 (c : Char) : Bool :=
  '1' ≤ c && c ≤ '6'

/-- The negative lookahead after the newline. -/
def brLookahead (cs : List Char) : Bool :=
  brPlainPats.any (fun p => startsL p.data cs)
    || startsL (chars "<div") cs
    || (startsL (chars "<a") cs && !isWordO (cs.get? 2))
    || (startsL (chars "<img") cs && !isWordO (cs.get? 4))
    || (startsL (chars "<h") cs
        && (match cs.get? 2, cs.get? 3 with
            | some d, some '>' => isDigit16 d
            | _, _ => false))
    || (startsL (chars "</h") cs
        && (match cs.get? 3, cs.get? 4 with
            | some d, some '>' => isDigit16 d
            | _, _ => false))

/-- The scan with a reversed window of the already-passed characters for
the `(?<!<\/li>)` lookbehind. -/
def brGo : Nat → List Char → List Char → List Char
  | 0, _, l => l
  | _ + 1, _, [] => []
  | fuel + 1, win, c :: cs =>
    if c = '\n' && !startsL (chars ">il/<") win && !brLookahead cs then
      chars "<br>" ++ brGo fuel ('\n' :: win) cs
    else c :: brGo fuel (c :: win) cs

def brPassL (l : List Char) : List Char :=
  brGo (l.length + 1) [] l

/-! Paragraph wrapping (line 344): `^(?!<[^>]*>)(?!> )(?!@@CODEBLOCK\d+@@)(.*)$`
with `gm`; the final empty line (after a trailing line terminator, or an
empty input) also matches and is wrapped. -/

def pWrapStep (prev : Option Char) (l : List Char) : Option (Nat × List Char) :=
  if atLineStart prev then
    if (l.head? = some '<' && (l.drop 1).contains '>') || startsL (chars "> ") l
        || (codeTokenAt l).isSome then none
    else
      let content := l.takeWhile fun c => c ≠ '\n' && c ≠ '\r'
      some (content.length, chars "<p>" ++ content ++ chars "</p>")
  else none

def paragraphPassL (l : List Char) : List Char :=
  gRepl0 pWrapStep (l.length + 1) none l
    ++ (if l.isEmpty || l.getLast? = some '\n' || l.getLast? = some '\r' then
          chars "<p></p>"
        else [])

/-! The cleanup chain (lines 346-377). -/

/-- Global literal replace. -/
def replaceAllLit (pat rep l : List Char) : List Char :=
  gRepl0 (fun _ t => if startsL pat t then some (pat.length, rep) else none)
    (l.length + 1) none l

/-- Match of `a\s*b` (two literals joined by optional whitespace). -/
def seqWsAt (a b l : List Char) : Option Nat :=
  if startsL a l then
    let w := (l.drop a.length).takeWhile jsWs
    if startsL b ((l.drop a.length).drop w.length) then
      some (a.length + w.length + b.length)
    else none
  else none

def seqWsPass (a b rep l : List Char) : List Char :=
  gRepl0 (fun _ t => (seqWsAt a b t).map fun k => (k, rep)) (l.length + 1) none l

/-- `replace(/<dd>(.*?)<\/dd>/g, …)` — `<br>`s inside a definition become
spaces. -/
def ddCleanupPassL (l : List Char) : List Char :=
  gRepl0
    (fun _ t => (lazyPairAt (chars "<dd>") (chars "</dd>") t).map fun r =>
      (r.1, chars "<dd>" ++ replaceAllLit (chars "<br>") (chars " ") r.2 ++ chars "</dd>"))
    (l.length + 1) none l

/-- Match of `(<[^>]+>)([^<]*?)<br>([^<]*?)(<\/[^>]+>)`, replaced by
`$1$2 $3$4`. -/
def tagBrTagAt (l : List Char) : Option (Nat × List Char) :=
  match l with
  | '<' :: cs =>
    let tag1 := cs.takeWhile fun c => c ≠ '>'
    if tag1.isEmpty then none
    else
      match cs.drop tag1.length with
      | '>' :: rest =>
        let g2 := rest.takeWhile fun c => c ≠ '<'
        if startsL (chars "<br>") (rest.drop g2.length) then
          let rest2 := (rest.drop g2.length).drop 4
          let g3 := rest2.takeWhile fun c => c ≠ '<'
          match rest2.drop g3.length with
          | '<' :: '/' :: rest3 =>
            let tag2 := rest3.takeWhile fun c => c ≠ '>'
            if tag2.isEmpty then none
            else
              match rest3.drop tag2.length with
              | '>' :: _ =>
                some (1 + tag1.length + 1 + g2.length + 4 + g3.length + 2 + tag2.length + 1,
                  ('<' :: tag1 ++ chars ">") ++ g2 ++ chars " " ++ g3
                    ++ (chars "</" ++ tag2 ++ chars ">"))
              | _ => none
          | _ => none
        else none
      | _ => none
  | _ => none

def tagBrTagPassL (l : List Char) : List Char :=
  gRepl0 (fun _ t => tagBrTagAt t) (l.length + 1) none l

/-- `>\s*<br>\s*<` → `> <`. -/
def gtBrLtAt (l : List Char) : Option Nat :=
  match l with
  | '>' :: rest =>
    let w1 := rest.takeWhile jsWs
    if startsL (chars "<br>") (rest.drop w1.length) then
      let rest2 := (rest.drop w1.length).drop 4
      let w2 := rest2.takeWhile jsWs
      if (rest2.drop w2.length).head? = some '<' then
        some (1 + w1.length + 4 + w2.length + 1)
      else none
    else none
  | _ => none

def cleanupPassL (l : List Char) : List Char :=
  let s1 := replaceAllLit (chars "<p></p>") [] l
  let s2 := replaceAllLit (chars "<p><br></p>") [] s1
  let s3 := ddCleanupPassL s2
  let s4 := seqWsPass (chars "<br>") (chars "<dl>") (chars "<dl>") s3
  let s5 := seqWsPass (chars "</dl>") (chars "<br>") (chars "</dl>") s4
  let s6 := seqWsPass (chars "<br>") (chars "<dt>") (chars "<dt>") s5
  let s7 := seqWsPass (chars "</dt>") (chars "<br>") (chars "</dt>") s6
  let s8 := seqWsPass (chars "<br>") (chars "<dd>") (chars "<dd>") s7
  let s9 := seqWsPass (chars "</dd>") (chars "<br>") (chars "</dd>") s8
  let s10 := tagBrTagPassL s9
  let s11 := seqWsPass (chars "<br>") (chars "<div class=\"blog-card\">")
    (chars "<div class=\"blog-card\">") s10
  let s12 := seqWsPass (chars "</div>") (chars "<br>") (chars "</div>") s11
  let s13 := seqWsPass (chars "<br>") (chars "<div class=\"blog-card-header\">")
    (chars "<div class=\"blog-card-header\">") s12
  let s14 := seqWsPass (chars "<br>") (chars "<div class=\"blog-card-meta\">")
    (chars "<div class=\"blog-card-meta\">") s13
  let s15 := seqWsPass (chars "<br>") (chars "<div class=\"blog-card-tags\">")
    (chars "<div class=\"blog-card-tags\">") s14
  let s16 := seqWsPass (chars "<br>") (chars "<h3 class=\"blog-card-title\">")
    (chars "<h3 class=\"blog-card-title\">") s15
  let s17 := seqWsPass (chars "<br>") (chars "<a class=\"blog-card-link\">")
    (chars "<a class=\"blog-card-link\">") s16
  let s18 := seqWsPass (chars "<br>") (chars "<span class=\"blog-card-date\">")
    (chars "<span class=\"blog-card-date\">") s17
  let s19 := seqWsPass (chars "<br>") (chars "<span class=\"blog-card-author\">")
    (chars "<span class=\"blog-card-author\">") s18
  let s20 := seqWsPass (chars "<br>") (chars "<span class=\"blog-card-tag\">")
    (chars "<span class=\"blog-card-tag\">") s19
  let s21 := seqWsPass (chars "<br>") (chars "<p class=\"blog-card-excerpt\">")
    (chars "<p class=\"blog-card-excerpt\">") s20
  let s22 := gRepl0 (fun _ t => (gtBrLtAt t).map fun k => (k, chars "> <"))
    (s21.length + 1) none s21
  let s23 := seqWsPass (chars "<br>") (chars ">") (chars ">") s22
  seqWsPass (chars ">") (chars "<br>") (chars ">") s23

/-! Code-block restoration (lines 379-402). -/

def escapeHtmlCode (code : List Char) : List Char :=
  replaceAllLit (chars "'") (chars "&#x27;")
    (replaceAllLit (chars "\"") (chars "&quot;")
      (replaceAllLit (chars ">") (chars "&gt;")
        (replaceAllLit (chars "<") (chars "&lt;")
          (replaceAllLit (chars "&") (chars "&amp;") code))))

def codeBlockHtml (language uid sanitized : List Char) : List Char :=
  chars "<div class=\"code-block-container\" data-language=\"" ++ language
    ++ chars "\" id=\"" ++ uid
    ++ chars "\">\n            <div class=\"code-block-header\">\n                <span class=\"language-label\">"
    ++ language
    ++ chars "</span>\n                <button class=\"copy-button\" type=\"button\">Copy</button>\n            </div>\n            <pre><code class=\"language-"
    ++ language ++ chars "\">" ++ sanitized ++ chars "</code></pre>\n        </div>"

/-- The restore step; the state counts successful replacements, indexing
the context's unique ids. -/
def restoreCodeStep (ctx : MdCtx) (bs : List RawCodeBlock) (st : Nat) (_ : Option Char)
    (l : List Char) : Option (Nat × List Char × Nat) :=
  match codeTokenAt l with
  | some (len, n) =>
    match bs[n]? with
    | some b =>
      some (len,
        codeBlockHtml (b.lang.map Char.toLower) (ctx.uniqueId st).data (escapeHtmlCode b.code),
        st + 1)
    | none => some (len, l.take len, st)
  | none => none

def restoreCodeBlocksL (ctx : MdCtx) (bs : List RawCodeBlock) (l : List Char) : List Char :=
  (gRepl _ (restoreCodeStep ctx bs) (l.length + 1) 0 none l).1

/-! The assembled pipeline. -/

/-- `parseMarkdown` (lines 35-405): the passes in source order. -/
def parseMarkdownL (ctx : MdCtx) (l0 : List Char) : List Char :=
  let r1 := protectScriptsL l0
  let t2 := imagesPassL ctx r1.1
  let t3 := linksPassL t2
  let t4 := nestedListsPassL t3
  let r5 := protectCodeL t4
  let t6 := defListsPassL r5.1
  let t7 := tablesPassL t6
  let t8 := taskListsPassL t7
  let t9 := abbreviationsPassL t8
  let t10 := (footnotesPhaseL t9).1
  let t11 := restoreScriptsL r1.2 t10
  let t12 := headersPassL t11
  let t13 := inlinePassL t12
  let t14 := blockquotesPassL t13
  let t15 := hrPassL t14
  let t16 := nlnlPassL t15
  let t17 := brPassL t16
  let t18 := paragraphPassL t17
  let t19 := cleanupPassL t18
  restoreCodeBlocksL ctx r5.2 t19

def parseMarkdown (ctx : MdCtx) (s : String) : String :=
  str (parseMarkdownL ctx s.data)

/-- A context with no WebP variants and deterministic placeholder ids. -/
def plainCtx : MdCtx :=
  ⟨fun _ => false, fun n => "code-id-" ++ toString n⟩

/-! ## Claim C1: the two restore points of the vaults -/

/-- **C1 counterexample.**  Script spans are restored *before* the
header/emphasis/inline-code passes run, so those passes reformat the
restored script content: the literal `**x**` inside a `<script>` element
does not appear verbatim in the output — it is rewritten to
`<strong>x</strong>`. -/
theorem c1_script_verbatim_counterexample :
    parseMarkdown plainCtx "<script>**x**</script>"
      = "</p><p><script><strong>x</strong></script></p><p>" ∧
    strContainsSub (parseMarkdown plainCtx "<script>**x**</script>") "**x**" = false := by
  have h : parseMarkdown plainCtx "<script>**x**</script>"
      = "</p><p><script><strong>x</strong></script></p><p>" := by decide
  refine ⟨h, ?_⟩
  rw [strContainsSub, h]
  decide

/-- **C1 (amended).**  Script spans are restored before the
inline-markdown transforms run, so angle brackets inside them are never
HTML-escaped, but markdown-like characters in the restored script content
*are* subject to the subsequent header/emphasis/inline-code passes and can
be reformatted; fenced code spans are restored only after all markdown
transforms, HTML-escaped, and wrapped in the display container. -/
theorem c1_restore_points_amended :
    (parseMarkdown plainCtx "<script>**x**</script>"
      = "</p><p><script><strong>x</strong></script></p><p>") ∧
    (parseMarkdown plainCtx "<script>if (a<b) x;</script>"
      = "</p><p><script>if (a<b) x;</script></p><p>" ∧
     strContainsSub (parseMarkdown plainCtx "<script>if (a<b) x;</script>") "&lt;" = false) ∧
    (strContainsSub (parseMarkdown plainCtx "```js\nlet a = 1 < 2;\n```")
        "<pre><code class=\"language-js\">let a = 1 &lt; 2;" = true ∧
     strContainsSub (parseMarkdown plainCtx "```js\nlet a = 1 < 2;\n```")
        "class=\"code-block-container\"" = true ∧
     strContainsSub (parseMarkdown plainCtx "```js\nlet a = 1 < 2;\n```")
        "1 < 2" = false ∧
     strContainsSub (parseMarkdown plainCtx "```js\nlet a = 1 < 2;\n```")
        "@@CODEBLOCK" = false) := by
  have h1 : parseMarkdown plainCtx "<script>**x**</script>"
      = "</p><p><script><strong>x</strong></script></p><p>" := by decide
  have h2 : parseMarkdown plainCtx "<script>if (a<b) x;</script>"
      = "</p><p><script>if (a<b) x;</script></p><p>" := by decide
  have h3 : parseMarkdown plainCtx "```js\nlet a = 1 < 2;\n```"
      = "<div class=\"code-block-container\" data-language=\"js\" id=\"code-id-0\">\n            <div class=\"code-block-header\">\n                <span class=\"language-label\">js</span>\n                <button class=\"copy-button\" type=\"button\">Copy</button>\n            </div>\n            <pre><code class=\"language-js\">let a = 1 &lt; 2;\n</code></pre>\n        </div>" := by
    decide
  refine ⟨h1, ⟨h2, ?_⟩, ?_, ?_, ?_, ?_⟩ <;>
    first
      | (rw [strContainsSub, h2]; decide)
      | (rw [strContainsSub, h3]; decide)

/-! ## Claim C10: footnote definitions are dropped, anchors dangle -/

/-- **C10 counterexample.**  The claim says no element with id
`footnote-<n>` is ever generated in the document content; but a heading
whose slug is `footnote-1` produces exactly such an element, to which the
reference anchor then points. -/
theorem c10_dangling_counterexample :
    parseMarkdown plainCtx "# Footnote 1\n\nx[^a]\n\n[^a]: hidden"
      = "<h1 id=\"footnote-1\"><a href=\"#footnote-1\" class=\"header-anchor\">Footnote 1</a></h1></p><p>x<sup class=\"footnote-ref\"><a href=\"#footnote-1\" id=\"footnote-ref-1\">[1]</a></sup></p><p>" ∧
    strContainsSub (parseMarkdown plainCtx "# Footnote 1\n\nx[^a]\n\n[^a]: hidden")
      "id=\"footnote-1\"" = true ∧
    strContainsSub (parseMarkdown plainCtx "# Footnote 1\n\nx[^a]\n\n[^a]: hidden")
      "href=\"#footnote-1\"" = true := by
  have h : parseMarkdown plainCtx "# Footnote 1\n\nx[^a]\n\n[^a]: hidden"
      = "<h1 id=\"footnote-1\"><a href=\"#footnote-1\" class=\"header-anchor\">Footnote 1</a></h1></p><p>x<sup class=\"footnote-ref\"><a href=\"#footnote-1\" id=\"footnote-ref-1\">[1]</a></sup></p><p>" := by
    decide
  refine ⟨h, ?_, ?_⟩ <;> (rw [strContainsSub, h]; decide)

/-- **C10 (amended).**  Footnote definition lines are collected into a
table and removed from the text, and the definition body is never emitted
by the footnote machinery; every generated reference anchor links to
`#footnote-<n>` while the pass itself only generates ids of the form
`footnote-ref-<n>`, so the anchor dangles unless some other construct
(such as a heading slug) happens to produce an id `footnote-<n>`. -/
theorem c10_defs_dropped_amended :
    (parseMarkdown plainCtx "Hello[^a] world\n\n[^a]: SECRETBODY42"
      = "<p>Hello<sup class=\"footnote-ref\"><a href=\"#footnote-1\" id=\"footnote-ref-1\">[1]</a></sup> world</p>") ∧
    ((footnotesPhaseL "Hello[^a] world\n\n[^a]: SECRETBODY42".data).2.1).lookup "a".data
      = some "SECRETBODY42".data ∧
    strContainsSub (parseMarkdown plainCtx "Hello[^a] world\n\n[^a]: SECRETBODY42")
      "SECRETBODY42" = false ∧
    strContainsSub (parseMarkdown plainCtx "Hello[^a] world\n\n[^a]: SECRETBODY42")
      "href=\"#footnote-1\"" = true ∧
    strContainsSub (parseMarkdown plainCtx "Hello[^a] world\n\n[^a]: SECRETBODY42")
      "id=\"footnote-1\"" = false ∧
    strContainsSub (parseMarkdown plainCtx "Hello[^a] world\n\n[^a]: SECRETBODY42")
      "id=\"footnote-ref-1\"" = true := by
  have h : parseMarkdown plainCtx "Hello[^a] world\n\n[^a]: SECRETBODY42"
      = "<p>Hello<sup class=\"footnote-ref\"><a href=\"#footnote-1\" id=\"footnote-ref-1\">[1]</a></sup> world</p>" := by
    decide
  refine ⟨h, by decide, ?_, ?_, ?_, ?_⟩ <;> (rw [strContainsSub, h]; decide)

end Astrodon
